import Mathlib

/-!
Verification development for the nextjs-app-auditor repository.

This file gives a shallow embedding, in Lean 4, of the parts of the
repository's audit pipeline that the frozen claims are about:

* `src/lib/ai/tools/sampling.ts`   — `intelligentSampling` (the Sampler);
* `src/lib/ai/agents/coordinator.ts` — `agentWrapper`, the six-agent fan-out,
  `normalizeAgentOutput`, the codemod stage and report assembly of
  `runFullAudit`;
* `src/lib/ai/tools/streaming.ts`  — `calculateProgress` and the progress
  events emitted by `runFullAudit`;
* `src/lib/ai/report.ts`           — `buildMarkdownReport`'s grouping and
  sorting of issues, and `severityRank`;
* the scan cache (`getCachedScan` / `cacheScanResult`);
* `src/lib/ai/tools/codegraph.ts`  — `buildCodeGraph` (the Chunker);
* the provider save/restore frame of `runFullAudit`.

Modelling conventions:
* JavaScript arrays are lists; `Array.prototype.sort` (stable since ES2019)
  is modelled by the stable insertion sort `jsSortBy`;
* machine numbers appearing in the claims are naturals / integers /
  rationals (no floating point is needed at any claim-relevant spot; where
  the source computes `Math.floor(x / k)` on byte counts the model uses
  natural division);
* `JSON.parse` is modelled by the executable parser `jsonParse` below,
  which follows the JSON grammar (ECMA-404) used by the JS builtin;
  numbers are kept as their source literal;
* fallible code returns `Option` / `Except`; promise rejection is the
  `Except.error` case; `await` is sequential composition.
-/

namespace NextAudit

/-! ## JS stable sort

`arr.sort(cmp)` with a consistent comparator is a stable sort (ES2019).
`jsSortBy lt` is a stable insertion sort: each element of the input is
inserted, in input order, before the first already-placed element `y`
such that `lt x y`; ties therefore keep input order.  For a comparator
of the form `(a, b) => key(b) - key(a)` (descending by a numeric key)
the matching `lt` is `fun a b => key b < key a`, and for
`(a, b) => key(a) - key(b)` (ascending) it is `fun a b => key a < key b`.
-/

def jsInsert (lt : α → α → Bool) (x : α) : List α → List α
  | [] => [x]
  | y :: ys => if lt x y then x :: y :: ys else y :: jsInsert lt x ys

def jsSortBy (lt : α → α → Bool) (l : List α) : List α :=
  l.foldl (fun acc x => jsInsert lt x acc) []

/-! ## Selection passes of the Sampler

`intelligentSampling`'s two selection loops (quota pass and fill pass)
share a shape: iterate over the scored list, stop as soon as the
selection has reached the cap, otherwise conditionally append the
current file.  `selPass cond` is that shape; `cond sel f` decides
whether `f` is appended given the current selection `sel`. -/

def selPass (maxFiles : Nat) (cond : List α → α → Bool) :
    List α → List α → List α
  | [], sel => sel
  | f :: rest, sel =>
    if sel.length ≥ maxFiles then sel
    else if cond sel f then selPass maxFiles cond rest (sel ++ [f])
    else selPass maxFiles cond rest sel

/-! ## Glob matching (micromatch)

`micromatch.isMatch(path, patterns, opts?)` for the pattern shapes used in
`sampling.ts`: `/`-separated patterns whose segments are either the
globstar `**` (zero or more path segments) or mixes of literal characters
and `*` (zero or more characters within one segment).  The `nocase`
option lowercases both sides. -/

/-- Single-character splitter (the behaviour of `String.prototype.split`
/ `String.splitOn` for a one-character separator), written by structural
recursion so that concrete instances reduce in the kernel. -/
def splitOnChar (sep : Char) : List Char → List (List Char)
  | [] => [[]]
  | c :: cs =>
    let r := splitOnChar sep cs
    if c == sep then [] :: r
    else
      match r with
      | [] => [[c]]
      | h :: t => (c :: h) :: t

/-- ASCII lowercasing (micromatch `nocase`; paths and patterns in the
source are ASCII). -/
def lowerChar (c : Char) : Char :=
  if 'A' ≤ c ∧ c ≤ 'Z' then Char.ofNat (c.toNat + 32) else c

def lowerChars (cs : List Char) : List Char := cs.map lowerChar

/-- Within-segment glob matching (`*` = any run of characters).  The
fuel argument only bounds the recursion depth, which is at most
`ps.length + cs.length`; `globChars` always supplies enough. -/
def globCharsF : Nat → List Char → List Char → Bool
  | 0, _, _ => false
  | _ + 1, [], [] => true
  | f + 1, '*' :: ps, [] => globCharsF f ps []
  | _ + 1, _ :: _, [] => false
  | _ + 1, [], _ :: _ => false
  | f + 1, '*' :: ps, c :: cs => globCharsF f ps (c :: cs) || globCharsF f ('*' :: ps) cs
  | f + 1, p :: ps, c :: cs => p == c && globCharsF f ps cs

def globChars (ps cs : List Char) : Bool :=
  globCharsF (ps.length + cs.length + 1) ps cs

/-- Segment-level glob matching: the globstar segment `**` matches zero
or more path segments; any other pattern segment must match one path
segment.  Fuel as in `globCharsF`. -/
def globSegsF : Nat → List (List Char) → List (List Char) → Bool
  | 0, _, _ => false
  | _ + 1, [], [] => true
  | f + 1, ['*', '*'] :: ps, [] => globSegsF f ps []
  | _ + 1, _ :: _, [] => false
  | _ + 1, [], _ :: _ => false
  | f + 1, ['*', '*'] :: ps, s :: ss =>
    globSegsF f ps (s :: ss) || globSegsF f (['*', '*'] :: ps) ss
  | f + 1, p :: ps, s :: ss => globChars p s && globSegsF f ps ss

def globSegs (ps ss : List (List Char)) : Bool :=
  globSegsF (ps.length + ss.length + 1) ps ss

def globMatch (pat path : String) : Bool :=
  globSegs (splitOnChar '/' pat.toList) (splitOnChar '/' path.toList)

/-- `micromatch.isMatch(path, patterns)`: some pattern matches. -/
def isMatch (path : String) (pats : List String) : Bool :=
  pats.any (fun p => globMatch p path)

/-- `micromatch.isMatch(path, patterns, \x7b nocase: true \x7d)`. -/
def isMatchNocase (path : String) (pats : List String) : Bool :=
  pats.any (fun p =>
    globSegs (splitOnChar '/' (lowerChars p.toList)) (splitOnChar '/' (lowerChars path.toList)))

/-! ## `src/lib/ai/tools/sampling.ts`

`RuleHit` is the heuristics record (`src/lib/ai/tools/heuristics.ts`).
A repository file is `{ path, content?, isBinary }`; the sampler reads
the content only through `content.length` (the size bonus), so the
`Buffer` is modelled by its byte length. -/

structure RuleHit where
  rule : String
  file : String
  line : Nat
  message : String
  evidence : Option String := none
deriving DecidableEq, Repr

structure RepoFile where
  path : String
  /-- `Buffer` content, modelled by its byte length; `none` = no content. -/
  content : Option Nat
  isBinary : Bool
deriving DecidableEq, Repr

structure FileWithPriority where
  path : String
  content : Option Nat
  isBinary : Bool
  priority : Nat
  reason : String
deriving DecidableEq, Repr

/-- The scoring loop body of `intelligentSampling` (lines 30–109 of
`sampling.ts`): one input file to its `FileWithPriority`, summing the
eleven category bonuses and collecting reason tags in source order. -/
def scoreFile (flaggedFiles : List String) (f : RepoFile) (len : Nat) : FileWithPriority :=
  let step := fun (acc : Nat × List String) (pts : Nat) (tag : String) (hit : Bool) =>
    if hit then (acc.1 + pts, acc.2 ++ [tag]) else acc
  let acc : Nat × List String := (0, [])
  let acc := step acc 10 "heuristic-hit" (flaggedFiles.contains f.path)
  let acc := step acc 8 "api-route"
    (isMatch f.path ["**/app/**/route.ts", "**/app/**/route.js", "**/pages/api/**/*"])
  let acc := step acc 7 "page-component"
    (isMatch f.path ["**/app/**/page.tsx", "**/app/**/page.jsx", "**/pages/**/*.tsx"])
  let acc := step acc 6 "layout"
    (isMatch f.path ["**/app/**/layout.tsx", "**/app/**/layout.jsx", "**/app/layout.*"])
  let acc := step acc 9 "auth-security"
    (isMatchNocase f.path ["**/*auth*", "**/*login*", "**/*password*", "**/*token*", "**/*session*"])
  let acc := step acc 7 "data-access"
    (isMatchNocase f.path ["**/prisma/**/*", "**/lib/db/**/*", "**/*database*", "**/*query*"])
  let acc := step acc 8 "middleware"
    (isMatch f.path ["**/middleware.ts", "**/middleware.js", "**/_middleware.*"])
  let acc := step acc 5 "config"
    (isMatch f.path ["**/next.config.*", "**/tailwind.config.*", "**/tsconfig.json"])
  -- size bonus: `sizeKb = content.length / 1024`; `if (sizeKb > 10)` adds
  -- `min 5 ⌊sizeKb / 10⌋` and the tag `large-file-⌊sizeKb⌋kb`
  let acc :=
    if len > 10240 then
      let sizeBonus := min 5 (len / 10240)
      if sizeBonus > 0 then (acc.1 + sizeBonus, acc.2 ++ ["large-file-" ++ toString (len / 1024) ++ "kb"])
      else acc
    else acc
  let acc := step acc 4 "lib-util" (isMatch f.path ["**/lib/**/*.ts", "**/utils/**/*.ts"])
  let acc := step acc 3 "component" (isMatch f.path ["**/components/**/*.tsx", "**/components/**/*.jsx"])
  { path := f.path, content := f.content, isBinary := f.isBinary,
    priority := acc.1,
    reason := if acc.2.isEmpty then "standard" else String.intercalate "," acc.2 }

/-- Quota table of `intelligentSampling` (`typeQuotas`); `inf` is the
JavaScript `Infinity` entry for `heuristic-hit`, and a primary type not in
the table gets `fin 0` (the `?? 0` default). -/
inductive Quota where
  | fin (n : Nat)
  | inf
deriving DecidableEq, Repr

def typeQuota (maxFiles : Nat) : String → Quota
  | "api-route" => .fin (maxFiles * 25 / 100)
  | "page-component" => .fin (maxFiles * 20 / 100)
  | "auth-security" => .fin (maxFiles * 15 / 100)
  | "data-access" => .fin (maxFiles * 10 / 100)
  | "middleware" => .fin 2
  | "layout" => .fin 2
  | "heuristic-hit" => .inf
  | _ => .fin 0

/-- `file.reason.split(',')[0]`. -/
def primaryType (f : FileWithPriority) : String :=
  String.mk ((splitOnChar ',' f.reason.toList).headD [])

/-- Substring containment on character lists (JS `String.prototype.includes`). -/
def charsContain (needle : List Char) : List Char → Bool
  | [] => needle.isEmpty
  | c :: cs => needle.isPrefixOf (c :: cs) || charsContain needle cs

/-- `f.reason.includes(primaryType)` — JS substring containment on the
joined reason string. -/
def reasonIncludes (f : FileWithPriority) (t : String) : Bool :=
  charsContain t.toList f.reason.toList

/-- First-pass acceptance test (lines 130–136): the file's primary reason
tag is under quota, counting already-selected files whose reason string
contains that tag as a substring.  Selection entries are tagged with
their index in the sorted list so that list membership in the model
coincides with JavaScript reference equality in the second pass. -/
def quotaCond (maxFiles : Nat) (sel : List (Nat × FileWithPriority)) (f : Nat × FileWithPriority) : Bool :=
  let primary := primaryType f.2
  let currentCount := (sel.filter (fun g => reasonIncludes g.2 primary)).length
  match typeQuota maxFiles primary with
  | .fin q => currentCount < q
  | .inf => true

/-- The `scored` array of `intelligentSampling` (lines 25–109): one
entry per non-binary, content-bearing input file. -/
def sampleScored (files : List RepoFile) (heuristics : List RuleHit) : List FileWithPriority :=
  files.filterMap (fun f =>
    if f.isBinary then none
    else match f.content with
      | none => none
      | some len => some (scoreFile (heuristics.map (·.file)) f len))

/-- `scored.sort((a, b) => b.priority - a.priority)` (line 112), with
each entry tagged by its sorted position (JS object identity). -/
def sampleSorted (files : List RepoFile) (heuristics : List RuleHit) :
    List (Nat × FileWithPriority) :=
  (jsSortBy (fun a b => decide (b.priority < a.priority)) (sampleScored files heuristics)).enum

/-- First pass (lines 127–137): fill quotas for high-priority types. -/
def samplePass1 (files : List RepoFile) (heuristics : List RuleHit) (maxFiles : Nat) :
    List (Nat × FileWithPriority) :=
  selPass maxFiles (quotaCond maxFiles) (sampleSorted files heuristics) []

/-- Second pass (lines 140–145): fill remaining slots with
highest-priority files not already selected (`!selected.includes(file)`). -/
def samplePass2 (files : List RepoFile) (heuristics : List RuleHit) (maxFiles : Nat) :
    List (Nat × FileWithPriority) :=
  selPass maxFiles (fun sel f => !sel.contains f) (sampleSorted files heuristics)
    (samplePass1 files heuristics maxFiles)

/-- `intelligentSampling(files, heuristics, maxFiles)` — the Sampler.
Scores the non-binary, content-bearing files, stable-sorts them by
descending priority, fills per-category quotas in a first pass, fills
remaining capacity in a second pass, and truncates to the cap
(`selected.slice(0, maxFiles)`). -/
def intelligentSampling (files : List RepoFile) (heuristics : List RuleHit)
    (maxFiles : Nat := 50) : List FileWithPriority :=
  ((samplePass2 files heuristics maxFiles).take maxFiles).map Prod.snd

/-! Concrete sampler inputs used by the C1 counterexample and witness.
`sampleFileA` scores 12 (`middleware` + `lib-util`), primary tag
`middleware` (quota 2); `sampleFileB` is non-binary, content-bearing and
referenced by `sampleHit`, scoring 10 (`heuristic-hit` only). -/

def sampleFileA : RepoFile := { path := "src/lib/middleware.ts", content := some 100, isBinary := false }

def sampleFileB : RepoFile := { path := "src/foo.py", content := some 50, isBinary := false }

def sampleHit : RuleHit := { rule := "no-eval", file := "src/foo.py", line := 1, message := "eval" }

/-! ## JSON values and `JSON.parse`

`JSON.parse` (ECMA-404 grammar) modelled as an executable recursive-descent
parser over character lists.  Numbers are kept as their source literal
(the claims never inspect numeric values, so no floating point is
needed).  The fuel argument of the mutual parsers only bounds recursion
depth; `jsonParse` supplies `2 * length + 2`, which is always enough
since every two recursive steps consume at least one character. -/

inductive Json where
  | null
  | bool (b : Bool)
  | num (lit : String)
  | str (s : String)
  | arr (elems : List Json)
  | obj (members : List (String × Json))
deriving Repr

/-- JSON whitespace (the four characters accepted by `JSON.parse`). -/
def jsonWsChar (c : Char) : Bool :=
  c == ' ' || c == '\t' || c == '\n' || c == '\r'

def skipWs (cs : List Char) : List Char := cs.dropWhile jsonWsChar

def isJsonDigit (c : Char) : Bool := '0' ≤ c && c ≤ '9'

def hexVal (c : Char) : Option Nat :=
  if '0' ≤ c ∧ c ≤ '9' then some (c.toNat - '0'.toNat)
  else if 'a' ≤ c ∧ c ≤ 'f' then some (c.toNat - 'a'.toNat + 10)
  else if 'A' ≤ c ∧ c ≤ 'F' then some (c.toNat - 'A'.toNat + 10)
  else none

/-- JSON string body after the opening quote: content characters and the
remainder after the closing quote.  (A `\u` escape of a lone surrogate
would collapse to `Char.ofNat`'s default; no claim depends on it.) -/
def parseStringBody : List Char → Option (List Char × List Char)
  | '"' :: rest => some ([], rest)
  | '\\' :: '"' :: r => (parseStringBody r).map fun p => ('"' :: p.1, p.2)
  | '\\' :: '\\' :: r => (parseStringBody r).map fun p => ('\\' :: p.1, p.2)
  | '\\' :: '/' :: r => (parseStringBody r).map fun p => ('/' :: p.1, p.2)
  | '\\' :: 'b' :: r => (parseStringBody r).map fun p => (Char.ofNat 8 :: p.1, p.2)
  | '\\' :: 'f' :: r => (parseStringBody r).map fun p => (Char.ofNat 12 :: p.1, p.2)
  | '\\' :: 'n' :: r => (parseStringBody r).map fun p => ('\n' :: p.1, p.2)
  | '\\' :: 'r' :: r => (parseStringBody r).map fun p => ('\r' :: p.1, p.2)
  | '\\' :: 't' :: r => (parseStringBody r).map fun p => ('\t' :: p.1, p.2)
  | '\\' :: 'u' :: a :: b :: c :: d :: r =>
    match hexVal a, hexVal b, hexVal c, hexVal d with
    | some x, some y, some z, some w =>
      (parseStringBody r).map fun p => (Char.ofNat (((x * 16 + y) * 16 + z) * 16 + w) :: p.1, p.2)
    | _, _, _, _ => none
  | '\\' :: _ => none
  | c :: rest =>
    if c.toNat < 32 then none
    else (parseStringBody rest).map fun p => (c :: p.1, p.2)
  | [] => none

def spanDigits : List Char → List Char × List Char
  | [] => ([], [])
  | c :: cs =>
    if isJsonDigit c then
      let r := spanDigits cs
      (c :: r.1, r.2)
    else ([], c :: cs)

/-- JSON integer part: `0 | [1-9][0-9]*`. -/
def parseIntPart : List Char → Option (List Char × List Char)
  | '0' :: rest => some (['0'], rest)
  | c :: rest =>
    if isJsonDigit c then
      let r := spanDigits rest
      some (c :: r.1, r.2)
    else none
  | [] => none

/-- Optional JSON fraction part: `(. [0-9]+)?`. -/
def parseFracPart : List Char → Option (List Char × List Char)
  | '.' :: rest =>
    match spanDigits rest with
    | ([], _) => none
    | (ds, r) => some ('.' :: ds, r)
  | cs => some ([], cs)

/-- Optional JSON exponent part: `([eE][+-]?[0-9]+)?`. -/
def parseExpPart : List Char → Option (List Char × List Char)
  | e :: rest =>
    if e == 'e' || e == 'E' then
      let sr : List Char × List Char :=
        match rest with
        | '+' :: r => (['+'], r)
        | '-' :: r => (['-'], r)
        | r => ([], r)
      match spanDigits sr.2 with
      | ([], _) => none
      | (ds, r) => some (e :: (sr.1 ++ ds), r)
    else some ([], e :: rest)
  | [] => some ([], [])

/-- JSON number literal: `-? int frac? exp?`. -/
def parseNumber (cs : List Char) : Option (List Char × List Char) :=
  let nr : List Char × List Char :=
    match cs with
    | '-' :: r => (['-'], r)
    | r => ([], r)
  match parseIntPart nr.2 with
  | none => none
  | some (ip, cs2) =>
    match parseFracPart cs2 with
    | none => none
    | some (fp, cs3) =>
      match parseExpPart cs3 with
      | none => none
      | some (ep, cs4) => some (nr.1 ++ ip ++ fp ++ ep, cs4)

mutual

def parseValue : Nat → List Char → Option (Json × List Char)
  | 0, _ => none
  | f + 1, cs =>
    match skipWs cs with
    | 'n' :: 'u' :: 'l' :: 'l' :: rest => some (.null, rest)
    | 't' :: 'r' :: 'u' :: 'e' :: rest => some (.bool true, rest)
    | 'f' :: 'a' :: 'l' :: 's' :: 'e' :: rest => some (.bool false, rest)
    | '"' :: rest => (parseStringBody rest).map fun p => (.str (String.mk p.1), p.2)
    | '[' :: rest =>
      match skipWs rest with
      | ']' :: rest2 => some (.arr [], rest2)
      | _ => (parseArrayItems f rest).map fun p => (.arr p.1, p.2)
    | '\x7b' :: rest =>
      match skipWs rest with
      | '\x7d' :: rest2 => some (.obj [], rest2)
      | _ => (parseObjItems f rest).map fun p => (.obj p.1, p.2)
    | other => (parseNumber other).map fun p => (.num (String.mk p.1), p.2)

def parseArrayItems : Nat → List Char → Option (List Json × List Char)
  | 0, _ => none
  | f + 1, cs =>
    match parseValue f cs with
    | none => none
    | some (v, rest) =>
      match skipWs rest with
      | ',' :: rest2 => (parseArrayItems f rest2).map fun p => (v :: p.1, p.2)
      | ']' :: rest2 => some ([v], rest2)
      | _ => none

def parseObjItems : Nat → List Char → Option (List (String × Json) × List Char)
  | 0, _ => none
  | f + 1, cs =>
    match skipWs cs with
    | '"' :: rest =>
      match parseStringBody rest with
      | none => none
      | some (k, rest2) =>
        match skipWs rest2 with
        | ':' :: rest3 =>
          match parseValue f rest3 with
          | none => none
          | some (v, rest4) =>
            match skipWs rest4 with
            | ',' :: rest5 => (parseObjItems f rest5).map fun p => ((String.mk k, v) :: p.1, p.2)
            | '\x7d' :: rest5 => some ([(String.mk k, v)], rest5)
            | _ => none
        | _ => none
    | _ => none

end

/-- `JSON.parse(s)`: parse one value and require only whitespace after it;
`none` is the thrown `SyntaxError`. -/
def jsonParse (s : String) : Option Json :=
  match parseValue (2 * s.length + 2) s.toList with
  | some (v, rest) => if (skipWs rest).isEmpty then some v else none
  | none => none

/-! ## `normalizeAgentOutput` (`coordinator.ts` lines 143–184)

The raw output of an agent is an arbitrary JS value: an array (structured
output), a string (legacy text output), or anything else. -/

inductive AgentRaw where
  | arr (elems : List Json)
  | str (s : String)
  | other (v : Json)
deriving Repr

/-- JS `typeof` of a parsed JSON value (used in the not-an-array warning). -/
def jsTypeof : Json → String
  | .null => "object"
  | .bool _ => "boolean"
  | .num _ => "number"
  | .str _ => "string"
  | .arr _ => "object"
  | .obj _ => "object"

/-- `String.prototype.trim` (inputs here are ASCII, so the four JSON
whitespace characters suffice). -/
def jsTrim (s : String) : String :=
  String.mk (((s.toList.dropWhile jsonWsChar).reverse.dropWhile jsonWsChar).reverse)

/-- Index of the last occurrence of `c` (JS `lastIndexOf`). -/
def lastIdxOf (c : Char) (cs : List Char) : Option Nat :=
  (cs.reverse.findIdx? (· == c)).map (fun i => cs.length - 1 - i)

/-- The `array-slice` candidate (lines 158–163): the slice of the trimmed
text from the first `[` to the last `]`, provided both exist and the
last `]` is after the first `[`. -/
def arraySlice (t : String) : Option String :=
  let cs := t.toList
  match cs.findIdx? (· == '['), lastIdxOf ']' cs with
  | some s, some e => if e > s then some (String.mk ((cs.drop s).take (e + 1 - s))) else none
  | _, _ => none

/-- The parse-attempt loop of `normalizeAgentOutput` (lines 165–180); the
base case is the fall-through failure warning of line 181 (the model
omits the engine-specific `SyntaxError` message interpolated there). -/
def normAttempts (agent : String) (warnings : List String) :
    List (String × String) → List Json × List String
  | [] => ([], warnings ++ [agent ++ ": failed to parse JSON"])
  | (label, text) :: rest =>
    match jsonParse text with
    | some (.arr l) =>
      if label ≠ "raw" then
        (l, warnings ++ [agent ++ ": parsed after " ++ label ++ " extraction"])
      else (l, warnings)
    | some v =>
      ([], warnings ++ [agent ++ ": parsed JSON was not an array (received " ++ jsTypeof v ++ ")"])
    | none => normAttempts agent warnings rest

/-- `normalizeAgentOutput(agent, raw)` — the OutputNormalizer.  The
`warnings` array it closes over is threaded explicitly: the result is
the returned findings list together with the updated warnings. -/
def normalizeAgentOutput (agent : String) (raw : AgentRaw) (warnings : List String) :
    List Json × List String :=
  match raw with
  | .arr l => (l, warnings)
  | .other _ => ([], warnings ++ [agent ++ ": empty response from model"])
  | .str s =>
    if s.isEmpty || (jsTrim s).isEmpty then
      ([], warnings ++ [agent ++ ": empty response from model"])
    else
      let trimmed := jsTrim s
      let attempts := [("raw", trimmed)] ++
        (match arraySlice trimmed with
         | some sl => if sl ≠ trimmed then [("array-slice", sl)] else []
         | none => [])
      normAttempts agent warnings attempts

/-! ## Issues (`src/lib/ai/agents/types.ts`) and the coordinator

JS runtime values reaching the issue fields are arbitrary JSON values
(the TS annotations are not enforced at runtime), so `title`,
`description`, `recommendation`, `docs` and `codemod` are modelled as
`Json`. -/

inductive IssueType where
  | security | performance | ux | backend | db | lint | general
deriving DecidableEq, Repr, Fintype

def IssueType.name : IssueType → String
  | .security => "security"
  | .performance => "performance"
  | .ux => "ux"
  | .backend => "backend"
  | .db => "db"
  | .lint => "lint"
  | .general => "general"

inductive Severity where
  | critical | high | medium | low | info
deriving DecidableEq, Repr, Fintype

structure Issue where
  id : String
  type : IssueType
  severity : Severity
  title : Json
  description : Json
  file : Option String := none
  line : Option Int := none
  recommendation : Option Json := none
  docs : Option Json := none
  codemod : Option Json := none
deriving Repr

/-- Property read `obj[k]` on a parsed JSON value: for objects the last
member with the key wins (`JSON.parse` duplicate-key semantics); for any
other value the result is `undefined` (`none`).  (Reading a property of
`null` would throw in JS; no analyzed code path does so with `null`.) -/
def jsonField (j : Json) (k : String) : Option Json :=
  match j with
  | .obj members => (members.reverse.find? (fun m => m.1 == k)).map (·.2)
  | _ => none

/-- Lines 190 and 194 of `coordinator.ts`: `it.severity ?? 'medium'`,
then constrained to the enum with `'medium'` as fallback. -/
def severityOf (it : Json) : Severity :=
  match jsonField it "severity" with
  | none => .medium
  | some .null => .medium
  | some (.str s) =>
    if s = "critical" then .critical
    else if s = "high" then .high
    else if s = "medium" then .medium
    else if s = "low" then .low
    else if s = "info" then .info
    else .medium
  | some _ => .medium

/-- `(it as \x7b title?: string \x7d).title ?? 'Issue'`. -/
def titleOf (it : Json) : Json :=
  match jsonField it "title" with
  | none => .str "Issue"
  | some .null => .str "Issue"
  | some v => v

/-- `(it as \x7b description?: string \x7d).description ?? ''`. -/
def descriptionOf (it : Json) : Json :=
  match jsonField it "description" with
  | none => .str ""
  | some .null => .str ""
  | some v => v

/-- Lines 191–199: one normalized finding to an `Issue`; `tok` is the
`Math.random().toString(36).slice(2, 8)` id suffix. -/
def issueOfJson (type : IssueType) (tok : String) (it : Json) : Issue :=
  { id := type.name ++ "-" ++ tok,
    type := type,
    severity := severityOf it,
    title := titleOf it,
    description := descriptionOf it,
    recommendation := jsonField it "recommendation",
    docs := jsonField it "docs" }

/-- The six analyzer outputs in the order they are destructured from
`Promise.all` (line 125). -/
structure AgentOutputs where
  ux : AgentRaw
  backend : AgentRaw
  db : AgentRaw
  security : AgentRaw
  performance : AgentRaw
  lint : AgentRaw

/-- The `[type, raw]` pairs iterated on line 187, in source order. -/
def agentPairs (outs : AgentOutputs) : List (IssueType × AgentRaw) :=
  [(.ux, outs.ux), (.backend, outs.backend), (.db, outs.db),
   (.security, outs.security), (.performance, outs.performance), (.lint, outs.lint)]

/-- Lines 186–201: normalize each agent output in order and append the
resulting issues; `randToks` is the stream of random id suffixes, read
once per created issue. -/
def mergeAgentIssues (randToks : Nat → String) (outs : AgentOutputs)
    (warnings : List String) : List Issue × List String :=
  (agentPairs outs).foldl
    (fun acc p =>
      let na := normalizeAgentOutput p.1.name p.2 acc.2
      (acc.1 ++ na.1.enum.map (fun e => issueOfJson p.1 (randToks (acc.1.length + e.1)) e.2),
        na.2))
    ([], warnings)

/-! ## `agentWrapper` and the fan-out (`coordinator.ts` lines 84–137) -/

/-- The error raised by an analyzer; `text` is the first truthy of
`err.cause?.text` and `err.text` (line 100–101), `none` when neither is
present. -/
structure AgentError where
  text : Option String
deriving DecidableEq, Repr

/-- A parsed JSON value as a raw agent result (`return parsed as T`). -/
def rawOfJson : Json → AgentRaw
  | .arr l => .arr l
  | .str s => .str s
  | v => .other v

/-- Lines 105–109: strip a Markdown code fence
(`^(three backticks)(json)?\n?` and `\n?(three backticks)$`) from the
trimmed text, then trim again. -/
def stripFence (t : String) : String :=
  let cleaned := jsTrim t
  let cs := cleaned.toList
  if ("```".toList).isPrefixOf cs then
    let cs1 := cs.drop 3
    let cs2 := if ("json".toList).isPrefixOf cs1 then cs1.drop 4 else cs1
    let cs3 := match cs2 with
      | '\n' :: r => r
      | r => r
    let rev := cs3.reverse
    let rev2 :=
      if ("```".toList).isPrefixOf rev then
        match rev.drop 3 with
        | '\n' :: rr => rr
        | rr => rr
      else rev
    jsTrim (String.mk rev2.reverse)
  else cleaned

/-- `agentWrapper` (lines 84–123): pass successes through; on failure,
if the error carries wrapped text, strip a Markdown fence and try
`JSON.parse`, returning the parsed value on success; otherwise rethrow.
(The `completedAgents` counter only feeds progress messages and is
modelled with the progress trace, not here.) -/
def agentWrapper (res : Except AgentError AgentRaw) : Except AgentError AgentRaw :=
  match res with
  | .ok r => .ok r
  | .error e =>
    match e.text with
    | none => .error e
    | some t =>
      if t.isEmpty then .error e
      else
        match jsonParse (stripFence t) with
        | some v => .ok (rawOfJson v)
        | none => .error e

/-- `await Promise.all([...])` over the six wrapped analyzer calls.
`Promise.all` rejects with the temporally first rejection; every theorem
below has at most one rejected analyzer, for which the model's
array-order choice coincides with any schedule. -/
def promiseAll6 (a b c d e f : Except AgentError AgentRaw) :
    Except AgentError (AgentRaw × AgentRaw × AgentRaw × AgentRaw × AgentRaw × AgentRaw) :=
  match a with
  | .error err => .error err
  | .ok ra =>
    match b with
    | .error err => .error err
    | .ok rb =>
      match c with
      | .error err => .error err
      | .ok rc =>
        match d with
        | .error err => .error err
        | .ok rd =>
          match e with
          | .error err => .error err
          | .ok re =>
            match f with
            | .error err => .error err
            | .ok rf => .ok (ra, rb, rc, rd, re, rf)

/-- Lines 206–212: attach up to three doc snippets `(title, url)` to
every issue when any were gathered.  (`issue.docs ?? []` — a non-array
`docs` value would make `.concat` throw in JS; such values do not arise
in the analyzed paths and are left unchanged here.) -/
def attachDocs (docsSnippets : List (String × String)) (issues : List Issue) : List Issue :=
  if docsSnippets.length > 0 then
    issues.map (fun issue =>
      let existing := match issue.docs with
        | some (.arr l) => l
        | _ => []
      { issue with docs := some (.arr (existing ++
          (docsSnippets.take 3).map (fun d => .obj [("title", .str d.1), ("url", .str d.2)]))) })
  else issues

/-- JS truthiness of a parsed JSON value (a number is falsy exactly when
its mantissa digits are all zero). -/
def jsTruthy : Json → Bool
  | .null => false
  | .bool b => b
  | .num lit => !((lit.toList.takeWhile (fun c => c != 'e' && c != 'E')).all
      (fun c => c == '0' || c == '-' || c == '+' || c == '.'))
  | .str s => !s.isEmpty
  | .arr _ => true
  | .obj _ => true

/-- `===` between issue titles and the planner's `issueTitle` (line 219):
value equality on primitives; distinct parsed objects/arrays are never
reference-equal. -/
def jsStrictEq : Json → Json → Bool
  | .null, .null => true
  | .bool a, .bool b => a == b
  | .num a, .num b => a == b
  | .str a, .str b => a == b
  | _, _ => false

/-- Lines 216–224: apply each codemod entry to the first issue whose
title strictly equals its `issueTitle`. -/
def applyCodemods (issues : List Issue) (codemods : List Json) : List Issue :=
  codemods.foldl
    (fun issues cm =>
      match jsonField cm "issueTitle", jsonField cm "codemod" with
      | some t, some c =>
        if jsTruthy t && jsTruthy c then
          match issues.findIdx? (fun i => jsStrictEq i.title t) with
          | some idx => issues.enum.map (fun e => if e.1 = idx then { e.2 with codemod := some c } else e.2)
          | none => issues
        else issues
      | _, _ => issues)
    issues

/-- Lines 226–235: the synthetic low-severity `general` issue summarizing
accumulated warnings. -/
def warningsIssue (tok : String) (warnings : List String) : Issue :=
  { id := "general-" ++ tok,
    type := .general,
    severity := .low,
    title := .str "Agent response warnings",
    description := .str (String.intercalate "; " warnings),
    recommendation := some (.str "Review model outputs or rerun the audit after the provider stabilises.") }

structure ScanStats where
  files : Nat
  chunks : Nat
  heuristics : Nat
  agents : Nat
  sampledFiles : Nat
deriving DecidableEq, Repr

/-- The fields of `ScanResult` that the claims concern; `startedAt` /
`finishedAt` (wall clock), `repo`, `openrouterProvider` and the
`markdown` rendering (modelled separately by `buildMarkdownReportOrder`)
are omitted. -/
structure ScanResultM where
  stats : ScanStats
  issues : List Issue
  provider : String
  model : String
  warnings : List String
deriving Repr

/-- `runFullAudit` from the agent fan-out to the assembled result
(lines 125–259).  External effects are parameters: `randToks` the stream
of `Math.random` id suffixes, `docsSnippets` the Context7 snippets
(empty when unconfigured), `codemodFn` the `codemodAgentPlan` inference
call (whose input is the already-merged issue list), and the six
analyzer outcomes.  A `.error` result is the promise rejection
propagated out of `runFullAudit`. -/
def runFullAuditCore (randToks : Nat → String) (docsSnippets : List (String × String))
    (codemodFn : List Issue → Except AgentError AgentRaw)
    (filesCount chunksCount heuristicsCount sampledCount : Nat)
    (provider modelId : String)
    (uxR beR dbR secR perfR lintR : Except AgentError AgentRaw) :
    Except AgentError ScanResultM :=
  match promiseAll6 (agentWrapper uxR) (agentWrapper beR) (agentWrapper dbR)
      (agentWrapper secR) (agentWrapper perfR) (agentWrapper lintR) with
  | .error e => .error e
  | .ok (ux, be, db, sec, perf, lint) =>
    let mi := mergeAgentIssues randToks ⟨ux, be, db, sec, perf, lint⟩ []
    let issues1 := attachDocs docsSnippets mi.1
    match codemodFn issues1 with
    | .error e => .error e
    | .ok craw =>
      let nc := normalizeAgentOutput "codemod" craw mi.2
      let issues2 := applyCodemods issues1 nc.1
      let issues3 :=
        if nc.2.length > 0 then issues2 ++ [warningsIssue (randToks issues2.length) nc.2]
        else issues2
      .ok { stats := { files := filesCount, chunks := chunksCount,
                       heuristics := heuristicsCount, agents := 6,
                       sampledFiles := sampledCount },
            issues := issues3, provider := provider, model := modelId, warnings := nc.2 }

/-- One failing analyzer among six, for the C2 witness. -/
def oneFailingAgent : Fin 6 → Except AgentError AgentRaw :=
  fun j => if j = 3 then .error ⟨none⟩ else .ok (.arr [])

/-! ## C7: the codemod planner runs strictly after the six analyzers -/

/-- Scheduler-visible events of one `runFullAudit` run: an analyzer
completing, and the single invocation of `codemodAgentPlan`. -/
inductive AuditEvent where
  | agentDone (i : Fin 6)
  | codemodInvoked (issues : List Issue)

/-- The event trace of the fan-out region of `runFullAudit` (lines
125–214): the six wrapped analyzer promises complete in some scheduler
order (`order`); `await Promise.all` resumes only after all of them, and
only in the fulfilled case is `codemodAgentPlan(\x7b issues \x7d)`
invoked — with the issues list merged from the six normalized outputs
(and docs attached, lines 186–212). -/
def runFullAuditTrace (randToks : Nat → String) (docsSnippets : List (String × String))
    (order : List (Fin 6))
    (uxR beR dbR secR perfR lintR : Except AgentError AgentRaw) : List AuditEvent :=
  (order.map .agentDone) ++
    (match promiseAll6 (agentWrapper uxR) (agentWrapper beR) (agentWrapper dbR)
        (agentWrapper secR) (agentWrapper perfR) (agentWrapper lintR) with
     | .error _ => []
     | .ok (ux, be, db, sec, perf, lint) =>
       [.codemodInvoked (attachDocs docsSnippets
          (mergeAgentIssues randToks ⟨ux, be, db, sec, perf, lint⟩ []).1)])

/-! ## Progress (`src/lib/ai/tools/streaming.ts` and the coordinator's
`progress?.stage` calls)

Progress values are exact rationals; the only non-integer values in the
emitted sequence come from `(completedAgents / 6) * 100`, and the
non-monotone step exhibited below involves only the exactly-representable
float values 45 and 25, so modelling JS float arithmetic by exact
rationals is faithful where it matters. -/

inductive ProgressStage where
  | initializing | downloading | extracting | sampling | parsing
  | heuristics | analyzing | synthesizing | complete | error
deriving DecidableEq, Repr

/-- The `stageWeights` table of `calculateProgress` (lines 93–104):
`(start, weight)` per stage. -/
def stageWeights : ProgressStage → Rat × Rat
  | .initializing => (0, 5)
  | .downloading => (5, 10)
  | .extracting => (15, 10)
  | .sampling => (25, 5)
  | .parsing => (30, 10)
  | .heuristics => (40, 5)
  | .analyzing => (45, 40)
  | .synthesizing => (85, 10)
  | .complete => (100, 0)
  | .error => (0, 0)

/-- `calculateProgress(stage, substageProgress)` (lines 92–108). -/
def calculateProgress (stage : ProgressStage) (substageProgress : Rat := 0) : Rat :=
  let sw := stageWeights stage
  min 100 (sw.1 + sw.2 * substageProgress / 100)

/-- The `progress` values of the events emitted during one successful
`runFullAudit` run with an attached progress stream, in emission order
(coordinator lines 33, 38, 40, 43, 51, 54, 58, 76, then the six
`agentWrapper` completions at line 88 with `completedAgents` = 1..6,
then lines 140, 237, and the `complete` event of line 263 whose
progress is the literal 100). -/
def auditProgressValues : List Rat :=
  [5,
   calculateProgress .heuristics 0, calculateProgress .heuristics 100,
   calculateProgress .sampling 0, calculateProgress .sampling 100,
   calculateProgress .parsing 0, calculateProgress .parsing 100,
   calculateProgress .analyzing 0]
  ++ (List.range 6).map (fun k => calculateProgress .analyzing (((k : Rat) + 1) / 6 * 100))
  ++ [calculateProgress .synthesizing 0, calculateProgress .synthesizing 100, 100]

/-! ## Report rendering order (`src/lib/ai/report.ts` lines 82–106)

`buildMarkdownReport` renders the findings section by grouping issues by
type into a `Map` (insertion order of first occurrence), sorting the
present types by their index in the fixed `order` array, and sorting
each group in place by descending `severityRank`.  The string assembly
around this ordering (headers, `formatIssue`, whitespace collapsing) is
not modelled; `buildMarkdownReportOrder` is the exact order in which the
rendered report emits the issues. -/

/-- `severityRank` (report.ts lines 109–118; the `default: 0` branch is
unreachable for the severity enum). -/
def severityRank : Severity → Nat
  | .critical => 5
  | .high => 4
  | .medium => 3
  | .low => 2
  | .info => 1

/-- The fixed category priority order (report.ts line 82). -/
def typeOrder : List IssueType :=
  [.security, .performance, .backend, .ux, .db, .lint, .general]

/-- `order.indexOf(t)` — every `IssueType` occurs in `typeOrder`. -/
def typeIdx (t : IssueType) : Nat := typeOrder.indexOf t

/-- One step of the grouping loop (lines 84–88): append the issue to its
type's bucket, creating the bucket at the end on first occurrence
(JS `Map` key insertion order). -/
def insertGrouped (acc : List (IssueType × List Issue)) (i : Issue) :
    List (IssueType × List Issue) :=
  match acc with
  | [] => [(i.type, [i])]
  | (t, b) :: rest =>
    if t = i.type then (t, b ++ [i]) :: rest
    else (t, b) :: insertGrouped rest i

def groupPairs (issues : List Issue) : List (IssueType × List Issue) :=
  issues.foldl insertGrouped []

/-- `grouped.get(type) ?? []`. -/
def groupedGet (g : List (IssueType × List Issue)) (t : IssueType) : List Issue :=
  match g.find? (fun p => p.1 == t) with
  | some p => p.2
  | none => []

/-- The within-group comparator `(a, b) => severityRank(b.severity) -
severityRank(a.severity)` as a strict before-relation. -/
def sevLt (a b : Issue) : Bool :=
  decide (severityRank b.severity < severityRank a.severity)

/-- The issue order of the rendered report: types sorted by
`order.indexOf`, each bucket sorted by descending severity (both via the
stable JS sort). -/
def buildMarkdownReportOrder (issues : List Issue) : List Issue :=
  let grouped := groupPairs issues
  let sortedTypes := jsSortBy (fun a b => decide (typeIdx a < typeIdx b)) (grouped.map Prod.fst)
  sortedTypes.bind (fun t => jsSortBy sevLt (groupedGet grouped t))

/-- A sample security finding for the C5 example conjunct. -/
def exIssue (sev : Severity) (n : String) : Issue :=
  { id := n, type := .security, severity := sev, title := .str n, description := .str "" }

/-! ## ScanCache (`getCachedScan` / `cacheScanResult`)

Modelled from the spec: the persistence layer behind the Prisma client
(`@/lib/db/prisma` and its schema) is not part of the analyzed sources;
per spec §4.8 and the §6 cache boundary it is a key-value/relational
store holding repo records `(id, owner, name, ref)` and scan records
keyed by `(repoId, commitSha, provider, model)` with a `createdAt`
timestamp and the stored issues.  The two cache functions themselves are
translated from their source; every store access they perform is logged
as a `DbOp`, and time (`Date.now()`) is the explicit `now` argument in
milliseconds. -/

def severityName : Severity → String
  | .critical => "critical"
  | .high => "high"
  | .medium => "medium"
  | .low => "low"
  | .info => "info"

structure RepoRefM where
  owner : String
  repo : String
  ref : Option String := none
deriving DecidableEq, Repr

structure RepoRecord where
  id : Nat
  owner : String
  name : String
  ref : Option String
deriving DecidableEq, Repr

structure IssueRecord where
  id : String
  type : String
  severity : String
  title : Json
  description : Json
  file : Option String
  line : Option Int
  recommendation : Option Json
  codemodName : Option Json
  codemodCommand : Option Json
deriving Repr

structure ScanRecord where
  id : Nat
  repoId : Nat
  commitSha : String
  createdAt : Int
  startedAt : Int
  finishedAt : Int
  stats : ScanStats
  provider : String
  model : Option String
  issues : List IssueRecord
deriving Repr

structure CacheStore where
  repos : List RepoRecord
  scans : List ScanRecord
  nextId : Nat
deriving Repr

/-- `CacheOptions` (part_001 lines 9–12). -/
structure CacheOptions where
  maxAge : Option Int := none
  forceRefresh : Bool := false
deriving Repr

/-- Store accesses performed by the cache functions. -/
inductive DbOp where
  | repoFindUnique (owner name : String)
  | scanFindFirst (repoId : Nat) (commitSha provider model : String)
  | repoUpsert (owner name : String)
  | scanCreate (repoId : Nat) (commitSha : String)
deriving DecidableEq, Repr

/-- An issue as reconstructed from the store (lines 87–101): `type` and
`severity` are the stored strings cast with `as any`, and `codemod` is
rebuilt from `codemodName` / `codemodCommand` (the source reuses
`codemodCommand` for the description on line 99). -/
structure CachedIssueM where
  id : String
  type : String
  severity : String
  title : Json
  description : Json
  file : Option String
  line : Option Int
  recommendation : Option Json
  codemod : Option Json
deriving Repr

/-- The `ScanResult` reconstructed by a cache hit (lines 78–106):
`markdown` is reset to `""` and `warnings` to `[]`. -/
structure CachedScanResult where
  repo : RepoRefM
  startedAt : Int
  finishedAt : Int
  stats : ScanStats
  issues : List CachedIssueM
  provider : String
  model : String
  markdown : String
  warnings : List String
deriving Repr

/-- JS falsiness of the `commitSha: string | null | undefined` argument
(`!commitSha`): absent or empty. -/
def shaFalsy : Option String → Bool
  | none => true
  | some s => s.isEmpty

/-- `getCachedScan(owner, repo, commitSha, provider, model, options)`
(part_001 lines 19–113).  Returns the cache lookup result together with
the store accesses performed.  The `orderBy createdAt desc` of
`findFirst` is the stable descending sort; errors of the store are
swallowed by the source's `try/catch` and have no counterpart in this
effect-free store model. -/
def getCachedScan (store : CacheStore) (now : Int) (owner repo : String)
    (commitSha : Option String) (provider model : String)
    (options : CacheOptions) : Option CachedScanResult × List DbOp :=
  if shaFalsy commitSha || options.forceRefresh then (none, [])
  else
    match commitSha with
    | none => (none, [])
    | some sha =>
      let ops := [DbOp.repoFindUnique owner repo]
      match store.repos.find? (fun r => r.owner == owner && r.name == repo) with
      | none => (none, ops)
      | some repoRecord =>
        let maxAge := options.maxAge.getD (7 * 24 * 60 * 60 * 1000)
        let cutoff := now - maxAge
        let ops := ops ++ [DbOp.scanFindFirst repoRecord.id sha provider model]
        let matching := store.scans.filter (fun s =>
          s.repoId == repoRecord.id && s.commitSha == sha && s.provider == provider &&
            s.model == some model && decide (cutoff ≤ s.createdAt))
        match jsSortBy (fun a b => decide (b.createdAt < a.createdAt)) matching with
        | [] => (none, ops)
        | scan :: _ =>
          (some
            { repo := { owner := repoRecord.owner, repo := repoRecord.name,
                        ref := repoRecord.ref },
              startedAt := scan.startedAt, finishedAt := scan.finishedAt,
              stats := scan.stats,
              issues := scan.issues.map (fun iss =>
                { id := iss.id, type := iss.type, severity := iss.severity,
                  title := iss.title, description := iss.description,
                  file := iss.file, line := iss.line,
                  recommendation := iss.recommendation,
                  codemod :=
                    match iss.codemodName with
                    | some n =>
                      if jsTruthy n then
                        let cmd := match iss.codemodCommand with
                          | none => Json.str ""
                          | some .null => Json.str ""
                          | some v => v
                        some (.obj [("name", n), ("command", cmd), ("description", cmd)])
                      else none
                    | none => none }),
              provider := scan.provider, model := scan.model.getD "unknown",
              markdown := "", warnings := [] }, ops)

/-- The fields of the `ScanResult` argument that `cacheScanResult` reads. -/
structure CacheInput where
  repo : RepoRefM
  startedAt : Int
  finishedAt : Int
  stats : ScanStats
  provider : String
  model : String
  issues : List Issue
deriving Repr

/-- The issue row written by `prisma.scan.create` (lines 157–167); the
row id is generated by the store and irrelevant to the claims. -/
def issueRecordOf (issue : Issue) : IssueRecord :=
  { id := "", type := issue.type.name, severity := severityName issue.severity,
    title := issue.title, description := issue.description,
    file := issue.file, line := issue.line,
    recommendation := issue.recommendation,
    codemodName := issue.codemod.bind (fun c => jsonField c "name"),
    codemodCommand := issue.codemod.bind (fun c => jsonField c "command") }

/-- `cacheScanResult(result, commitSha)` (part_001 lines 118–181): skip
entirely when the revision is falsy, else upsert the repo (a Prisma
`update` with an `undefined` field leaves the column unchanged) and
append the scan row.  Store errors are swallowed by the source and have
no counterpart in this effect-free model. -/
def cacheScanResult (store : CacheStore) (now : Int) (result : CacheInput)
    (commitSha : Option String) : CacheStore × List DbOp :=
  if shaFalsy commitSha then (store, [])
  else
    match commitSha with
    | none => (store, [])
    | some sha =>
      let ops := [DbOp.repoUpsert result.repo.owner result.repo.repo]
      match store.repos.find? (fun r =>
          r.owner == result.repo.owner && r.name == result.repo.repo) with
      | some r =>
        let repos' := store.repos.map (fun r0 =>
          if r0.id == r.id then
            { r0 with ref := match result.repo.ref with
                | none => r0.ref
                | some ref => some ref }
          else r0)
        let scanRec : ScanRecord :=
          { id := store.nextId, repoId := r.id, commitSha := sha, createdAt := now,
            startedAt := result.startedAt, finishedAt := result.finishedAt,
            stats := result.stats, provider := result.provider,
            model := some result.model, issues := result.issues.map issueRecordOf }
        ({ repos := repos', scans := store.scans ++ [scanRec], nextId := store.nextId + 1 },
          ops ++ [DbOp.scanCreate r.id sha])
      | none =>
        let repoRec : RepoRecord :=
          { id := store.nextId, owner := result.repo.owner, name := result.repo.repo,
            ref := result.repo.ref }
        let scanRec : ScanRecord :=
          { id := store.nextId + 1, repoId := repoRec.id, commitSha := sha, createdAt := now,
            startedAt := result.startedAt, finishedAt := result.finishedAt,
            stats := result.stats, provider := result.provider,
            model := some result.model, issues := result.issues.map issueRecordOf }
        ({ repos := store.repos ++ [repoRec], scans := store.scans ++ [scanRec],
           nextId := store.nextId + 2 },
          ops ++ [DbOp.scanCreate repoRec.id sha])

/-! ## Chunker (`src/lib/ai/tools/codegraph.ts`)

`buildCodeGraph` is parametrized by the ts-morph parse `ast : String →
List AstNode`: the top-level nodes visited by `forEachDescendant` of a
source file, a function of its text alone.  Line/position bookkeeping
(`getLineAndColumnAtPos`, `getBaseName`, `getFilePath`, text slices) is
computed concretely; the in-memory file system normalizes paths to a
leading `/`. -/

inductive NodeKind where
  | functionDecl | classDecl | variableStmt
deriving DecidableEq, Repr

structure AstNode where
  kind : NodeKind
  name : Option String
  start : Nat
  stop : Nat
deriving Repr

structure CodeChunk where
  id : String
  file : String
  kind : String
  name : Option String
  text : String
  startLine : Nat
  endLine : Nat
deriving Repr

structure SourceFile where
  path : String
  content : Option String
  isBinary : Bool
deriving Repr

/-- `getLineAndColumnAtPos(pos).line`: 1-based line of a character
position. -/
def lineAt (content : String) (pos : Nat) : Nat :=
  ((content.toList.take pos).countP (· == '\n')) + 1

/-- `sf.getBaseName()`: the last path segment. -/
def baseName (path : String) : String :=
  String.mk ((splitOnChar '/' path.toList).getLastD [])

/-- ts-morph in-memory file system path (`sf.getFilePath()`). -/
def normalizePath (path : String) : String :=
  match path.toList with
  | '/' :: _ => path
  | _ => "/" ++ path

def sliceText (content : String) (start stop : Nat) : String :=
  String.mk ((content.toList.drop start).take (stop - start))

def isWsRe (c : Char) : Bool :=
  c == ' ' || c == '\t' || c == '\n' || c == '\r' || c == '\x0c' || c == '\x0b'

def isWordChar (c : Char) : Bool := c.isAlphanum || c == '_'

/-- The first regex alternative `=\s*\(?\s*[\w]*\s*=>` anchored at the
head of the list (maximal munch is exact here: the character classes and
the `=>` terminator are disjoint). -/
def matchArrowAt : List Char → Bool
  | '=' :: rest =>
    let r1 := rest.dropWhile isWsRe
    let r2 := match r1 with
      | '(' :: r => r.dropWhile isWsRe
      | r => r
    let r3 := (r2.dropWhile isWordChar).dropWhile isWsRe
    ("=>".toList).isPrefixOf r3
  | _ => false

/-- The second regex alternative `function\s*\(` anchored at the head. -/
def matchFnAt (cs : List Char) : Bool :=
  ("function".toList).isPrefixOf cs &&
    (match (cs.drop 8).dropWhile isWsRe with
     | '(' :: _ => true
     | _ => false)

/-- `/=\s*\(?\s*[\w]*\s*=>|function\s*\(/.test(text)` (line 43). -/
def componentRe : List Char → Bool
  | [] => false
  | c :: rest => matchArrowAt (c :: rest) || matchFnAt (c :: rest) || componentRe rest

/-- `\.(ts|tsx|js|jsx|mjs|cjs)$` (line 17). -/
def hasSourceExt (path : String) : Bool :=
  [".ts", ".tsx", ".js", ".jsx", ".mjs", ".cjs"].any
    (fun e => (e.toList.reverse).isPrefixOf path.toList.reverse)

/-- The `add` helper of `buildCodeGraph` (lines 23–29): chunk ids
combine the file's **base name** with the line span only. -/
def mkChunk (file : String) (content : String) (kind : String) (name : Option String)
    (start stop : Nat) : CodeChunk :=
  { id := baseName file ++ ":" ++ toString (lineAt content start) ++ "-"
      ++ toString (lineAt content stop),
    file := file, kind := kind, name := name,
    text := sliceText content start stop,
    startLine := lineAt content start, endLine := lineAt content stop }

/-- The `forEachDescendant` callback (lines 31–47) for one node. -/
def chunksOfNode (file : String) (content : String) (node : AstNode) : List CodeChunk :=
  match node.kind with
  | .functionDecl => [mkChunk file content "function" node.name node.start node.stop]
  | .classDecl => [mkChunk file content "class" node.name node.start node.stop]
  | .variableStmt =>
    let text := sliceText content node.start node.stop
    if componentRe text.toList && text.length > 80 then
      [mkChunk file content "component" none node.start node.stop]
    else []

/-- `project.createSourceFile(path, content, overwrite: true)` over the
eligible files (lines 15–19): non-binary, content-bearing, source
extension; a repeated path overwrites the stored content. -/
def eligibleFiles (files : List SourceFile) : List (String × String) :=
  files.foldl
    (fun acc f =>
      if f.isBinary then acc
      else match f.content with
        | none => acc
        | some content =>
          if hasSourceExt f.path then
            let p := normalizePath f.path
            if acc.any (fun q => q.1 == p) then
              acc.map (fun q => if q.1 == p then (q.1, content) else q)
            else acc ++ [(p, content)]
          else acc)
    []

/-- The whole-file fallback chunk (lines 49–55). -/
def fallbackChunk (path content : String) : CodeChunk :=
  { id := baseName path ++ ":1-" ++ toString (lineAt content content.length),
    file := path, kind := "code", name := none, text := content,
    startLine := 1, endLine := lineAt content content.length }

/-- One iteration of the source-file loop (lines 21–56): traverse the
file's AST collecting chunks, then append the whole-file fallback if the
accumulated list holds no chunk for this file. -/
def chunkStep (ast : String → List AstNode) (chunks : List CodeChunk)
    (sf : String × String) : List CodeChunk :=
  let nodeChunks := (ast sf.2).foldl (fun cs node => cs ++ chunksOfNode sf.1 sf.2 node) []
  let chunks := chunks ++ nodeChunks
  if (chunks.filter (fun c => c.file == sf.1)).length == 0 then
    chunks ++ [fallbackChunk sf.1 sf.2]
  else chunks

/-- `buildCodeGraph(files)` (lines 13–58), parametrized by the parse. -/
def buildCodeGraph (ast : String → List AstNode) (files : List SourceFile) : List CodeChunk :=
  (eligibleFiles files).foldl (chunkStep ast) []

/-! ## The provider module and `runFullAudit`'s restore frame (C10)

The provider module (`@/lib/ai/provider`, the third segment of
`src/lib/db/index.ts`, lines 62–153).  Its process-wide mutable state
has two fields: `activeProvider` (line 71, read by `getAIProvider`,
written by `setAIProvider`) and the memoized OpenRouter client
`cachedOpenRouter` (lines 72–74, initialized by `ensureOpenRouter`,
never reset).  The environment variables the module reads are the
explicit `ProviderEnv` record. -/

inductive AIProviderName where
  | vercel | openrouter
deriving DecidableEq, Repr

/-- The environment variables read by the provider module: `apiKey` =
`OPENROUTER_API_KEY`, `httpReferer` = `OPENROUTER_HTTP_REFERER`,
`siteUrl` = `NEXT_PUBLIC_SITE_URL`, `appName` = `OPENROUTER_APP_NAME`,
`baseURL` = `OPENROUTER_BASE_URL`, `gatewayDefaultModel` =
`AI_GATEWAY_DEFAULT_MODEL`, `openRouterDefaultModel` =
`OPENROUTER_DEFAULT_MODEL`, `openRouterDefaultProvider` =
`OPENROUTER_DEFAULT_PROVIDER`; `none` is an unset variable. -/
structure ProviderEnv where
  apiKey : Option String := none
  httpReferer : Option String := none
  siteUrl : Option String := none
  appName : Option String := none
  baseURL : Option String := none
  gatewayDefaultModel : Option String := none
  openRouterDefaultModel : Option String := none
  openRouterDefaultProvider : Option String := none
deriving DecidableEq, Repr

/-- `DEFAULT_VERCEL_MODEL` (line 67). -/
def DEFAULT_VERCEL_MODEL (env : ProviderEnv) : String :=
  env.gatewayDefaultModel.getD "moonshotai/kimi-k2-0905"

/-- `DEFAULT_OPENROUTER_MODEL` (line 68). -/
def DEFAULT_OPENROUTER_MODEL (env : ProviderEnv) : String :=
  env.openRouterDefaultModel.getD "z-ai/glm-4.6"

/-- `DEFAULT_OPENROUTER_PROVIDER` (line 69, `?? null`). -/
def DEFAULT_OPENROUTER_PROVIDER (env : ProviderEnv) : Option String :=
  env.openRouterDefaultProvider

/-- The value `createOpenAI(\x7b apiKey, baseURL, headers \x7d)` is
called with (lines 90–94): an OpenRouter client is determined by its
configuration. -/
structure OpenRouterClient where
  apiKey : String
  baseURL : String
  headers : List (String × String)
deriving DecidableEq, Repr

/-- The provider module's process-wide mutable state (lines 71–74). -/
structure ProviderState where
  activeProvider : AIProviderName
  cachedOpenRouter : Option OpenRouterClient
deriving DecidableEq, Repr

/-- `setAIProvider(provider)` (lines 110–112). -/
def setAIProvider (provider : AIProviderName) (s : ProviderState) : ProviderState :=
  { s with activeProvider := provider }

/-- `getAIProvider()` (lines 114–116). -/
def getAIProvider (s : ProviderState) : AIProviderName :=
  s.activeProvider

/-- `getDefaultModelForProvider(provider)` (lines 118–120). -/
def getDefaultModelForProvider (env : ProviderEnv) (provider : AIProviderName) : String :=
  if provider = .openrouter then DEFAULT_OPENROUTER_MODEL env else DEFAULT_VERCEL_MODEL env

/-- `getOpenRouterProvider()` (lines 122–124). -/
def getOpenRouterProvider (env : ProviderEnv) : Option String :=
  DEFAULT_OPENROUTER_PROVIDER env

/-- `ensureOpenRouter()` (lines 76–96): return the memoized client, or
build and **cache** one; throws when `OPENROUTER_API_KEY` is absent or
empty. -/
def ensureOpenRouter (env : ProviderEnv) (s : ProviderState) :
    Except String (OpenRouterClient × ProviderState) :=
  match s.cachedOpenRouter with
  | some c => .ok (c, s)
  | none =>
    match env.apiKey with
    | none =>
      .error "OpenRouter provider selected but OPENROUTER_API_KEY is not configured on the server."
    | some apiKey =>
      if apiKey.isEmpty then
        .error "OpenRouter provider selected but OPENROUTER_API_KEY is not configured on the server."
      else
        let referer := env.httpReferer.getD (env.siteUrl.getD "http://localhost:3000")
        let title := env.appName.getD "nextjs-audit-app"
        let headers := [("HTTP-Referer", referer), ("X-Title", title)] ++
          (match DEFAULT_OPENROUTER_PROVIDER env with
           | some p => if p.isEmpty then [] else [("X-OpenRouter-Provider", p)]
           | none => [])
        let client : OpenRouterClient :=
          { apiKey := apiKey,
            baseURL := env.baseURL.getD "https://openrouter.ai/api/v1",
            headers := headers }
        .ok (client, { s with cachedOpenRouter := some client })

/-- The `model?: any` argument of `resolveModel`: absent
(`undefined`/`null`), a string id, or a non-string model object. -/
inductive ModelArg where
  | missing
  | str (s : String)
  | obj
deriving DecidableEq, Repr

/-- What `resolveModel` returns: a plain string id, a routed
`client(id)` call, or the non-string model object passed through. -/
inductive ResolvedModel where
  | modelId (id : String)
  | routed (client : OpenRouterClient) (id : String)
  | passthrough
deriving DecidableEq, Repr

/-- `resolveModel(model)` (lines 98–108).  Under `openrouter` it calls
`ensureOpenRouter()` first — initializing the cache — before any other
check; `!requested` also treats the empty string as absent. -/
def resolveModel (env : ProviderEnv) (model : ModelArg) (s : ProviderState) :
    Except String (ResolvedModel × ProviderState) :=
  if s.activeProvider = .openrouter then
    match ensureOpenRouter env s with
    | .error e => .error e
    | .ok (client, s1) =>
      match model with
      | .obj => .ok (.passthrough, s1)
      | .missing => .ok (.routed client (DEFAULT_OPENROUTER_MODEL env), s1)
      | .str requested =>
        let id := if requested.isEmpty || requested = DEFAULT_VERCEL_MODEL env then
            DEFAULT_OPENROUTER_MODEL env
          else requested
        .ok (.routed client id, s1)
  else
    match model with
    | .missing => .ok (.modelId (DEFAULT_VERCEL_MODEL env), s)
    | .str m => .ok (.modelId m, s)
    | .obj => .ok (.passthrough, s)

/-- `runFullAudit`'s provider frame (coordinator lines 24–27 and
269–271): `prevProvider = getAIProvider()` is read before
`setAIProvider(targetProvider)`, the whole `try` body runs as a state
transformer on the module state (each agent call goes through
`ai.generateObject` → `resolveModel`, so the body may initialize
`cachedOpenRouter`; its outcome may be a result or a propagated error),
and the `finally` block runs `setAIProvider(prevProvider)` on both
paths — and nothing else. -/
def runFullAuditProviderFrame (s0 : ProviderState) (inputProvider : Option AIProviderName)
    (body : ProviderState → Except AgentError ScanResultM × ProviderState) :
    Except AgentError ScanResultM × ProviderState :=
  let targetProvider := inputProvider.getD .vercel
  let prevProvider := getAIProvider s0
  let s1 := setAIProvider targetProvider s0
  let step := body s1
  (step.1, setAIProvider prevProvider step.2)

/-- Environment for the C10 counterexample: only `OPENROUTER_API_KEY`
is configured. -/
def exProviderEnv : ProviderEnv :=
  { apiKey := some "sk-or-test" }

/-- Initial module state for the C10 counterexample: `vercel` active,
OpenRouter client not yet memoized. -/
def exProviderState : ProviderState :=
  { activeProvider := .vercel, cachedOpenRouter := none }

/-- A `try`-body for the C10 counterexample: one agent inference call
resolves its model (as `ai.generateObject` does on every agent call,
with no explicit `model`, so `resolveModel(undefined)` runs and
initializes the cache) and the agent then fails, so the run propagates
an error. -/
def exOpenRouterBody (s : ProviderState) :
    Except AgentError ScanResultM × ProviderState :=
  match resolveModel exProviderEnv .missing s with
  | .ok (_, s1) => (.error ⟨none⟩, s1)
  | .error _ => (.error ⟨none⟩, s)

theorem jsInsert_perm (lt : α → α → Bool) (x : α) (l : List α) :
    List.Perm (jsInsert lt x l) (x :: l) := by
  induction l with
  | nil => simp [jsInsert]
  | cons y ys ih =>
    by_cases h : lt x y
    · simp [jsInsert, h]
    · simp only [jsInsert, h, if_neg, Bool.false_eq_true, not_false_iff, ite_false]
      exact List.Perm.trans (List.Perm.cons y ih) (List.Perm.swap x y ys)

theorem jsSortBy_perm (lt : α → α → Bool) (l : List α) :
    List.Perm (jsSortBy lt l) l := by
  suffices h : ∀ (l acc : List α), List.Perm (l.foldl (fun acc x => jsInsert lt x acc) acc) (acc ++ l) by
    simpa using h l []
  intro l
  induction l with
  | nil => intro acc; simp
  | cons x xs ih =>
    intro acc
    have h1 : List.Perm ((x :: xs).foldl (fun acc x => jsInsert lt x acc) acc)
        ((jsInsert lt x acc) ++ xs) := ih (jsInsert lt x acc)
    have h2 : List.Perm ((jsInsert lt x acc) ++ xs) ((x :: acc) ++ xs) :=
      List.Perm.append_right xs (jsInsert_perm lt x acc)
    have h3 : List.Perm ((x :: acc) ++ xs) (acc ++ x :: xs) := by
      simpa using (@List.perm_middle _ x acc xs).symm
    exact h1.trans (h2.trans h3)

/-- Elements laid out by `jsInsert` stay sorted with respect to the
negation of the comparator, assuming the comparator is asymmetric and
"transitive against negations" (both hold for comparators derived from a
numeric key). -/
theorem jsInsert_pairwise (lt : α → α → Bool)
    (hasym : ∀ a b, lt a b = true → lt b a = false)
    (htrans : ∀ a b c, lt a b = true → lt c b = false → lt c a = false)
    (x : α) (l : List α)
    (hl : l.Pairwise (fun a b => lt b a = false)) :
    (jsInsert lt x l).Pairwise (fun a b => lt b a = false) := by
  induction l with
  | nil => simp [jsInsert]
  | cons y ys ih =>
    rcases List.pairwise_cons.mp hl with ⟨hy, hys⟩
    by_cases h : lt x y
    · simp only [jsInsert, h, ite_true]
      refine List.pairwise_cons.mpr ⟨?_, hl⟩
      intro z hz
      rcases List.mem_cons.mp hz with rfl | hz
      · exact hasym x z h
      · exact htrans x y z h (hy z hz)
    · simp only [jsInsert, h, Bool.false_eq_true, not_false_iff, ite_false]
      refine List.pairwise_cons.mpr ⟨?_, ih hys⟩
      intro z hz
      have hz' := (jsInsert_perm lt x ys).mem_iff.mp hz
      rcases List.mem_cons.mp hz' with rfl | hz'
      · exact Bool.eq_false_iff.mpr h
      · exact hy z hz'

theorem jsSortBy_pairwise (lt : α → α → Bool)
    (hasym : ∀ a b, lt a b = true → lt b a = false)
    (htrans : ∀ a b c, lt a b = true → lt c b = false → lt c a = false)
    (l : List α) :
    (jsSortBy lt l).Pairwise (fun a b => lt b a = false) := by
  suffices h : ∀ (l acc : List α),
      acc.Pairwise (fun a b => lt b a = false) →
      (l.foldl (fun acc x => jsInsert lt x acc) acc).Pairwise (fun a b => lt b a = false) by
    exact h l [] (by simp)
  intro l
  induction l with
  | nil => intro acc hacc; simpa using hacc
  | cons x xs ih =>
    intro acc hacc
    exact ih (jsInsert lt x acc) (jsInsert_pairwise lt hasym htrans x acc hacc)

/-! Stability of `jsSortBy` for a descending numeric key: filtering the
sorted list at one key value returns those elements in input order. -/

theorem sorted_desc_filter_eq_nil (key : α → Nat) (s : Nat) (y : α) (ys : List α)
    (hsort : (y :: ys).Pairwise (fun a b => key b ≤ key a))
    (hy : key y < s) :
    (y :: ys).filter (fun a => key a == s) = [] := by
  rw [List.filter_eq_nil_iff]
  intro a ha
  rcases List.mem_cons.mp ha with rfl | ha
  · simp only [beq_iff_eq]; omega
  · have := (List.pairwise_cons.mp hsort).1 a ha
    simp only [beq_iff_eq]; omega

theorem jsInsert_filter_key (key : α → Nat) (s : Nat) (x : α) (acc : List α)
    (hacc : acc.Pairwise (fun a b => key b ≤ key a)) :
    (jsInsert (fun a b => decide (key b < key a)) x acc).filter (fun a => key a == s)
      = acc.filter (fun a => key a == s) ++ (if key x == s then [x] else []) := by
  induction acc with
  | nil => by_cases h : key x == s <;> simp [jsInsert, List.filter, h]
  | cons y ys ih =>
    rcases List.pairwise_cons.mp hacc with ⟨hy, hys⟩
    by_cases h : key y < key x
    · simp only [jsInsert, decide_eq_true h, ite_true]
      by_cases hxs : key x == s
      · have hlt : key y < s := by
          have := beq_iff_eq.mp hxs; omega
        have hnil : (y :: ys).filter (fun a => key a == s) = [] :=
          sorted_desc_filter_eq_nil key s y ys hacc hlt
        simp [List.filter_cons, hxs, hnil]
      · simp [List.filter_cons, hxs]
    · simp only [jsInsert, decide_eq_false h, Bool.false_eq_true, not_false_iff, ite_false]
      by_cases hys' : key y == s <;>
        simp [List.filter_cons, hys', ih hys]

theorem jsSortBy_filter_key (key : α → Nat) (s : Nat) (l : List α) :
    (jsSortBy (fun a b => decide (key b < key a)) l).filter (fun a => key a == s)
      = l.filter (fun a => key a == s) := by
  suffices h : ∀ (l acc : List α), acc.Pairwise (fun a b => key b ≤ key a) →
      (l.foldl (fun acc x => jsInsert (fun a b => decide (key b < key a)) x acc) acc).filter
          (fun a => key a == s)
        = acc.filter (fun a => key a == s) ++ l.filter (fun a => key a == s) by
    simpa using h l [] (by simp)
  intro l
  induction l with
  | nil => intro acc hacc; simp
  | cons x xs ih =>
    intro acc hacc
    have hins : (jsInsert (fun a b => decide (key b < key a)) x acc).Pairwise
        (fun a b => key b ≤ key a) := by
      have := jsInsert_pairwise (fun a b => decide (key b < key a))
        (by intro a b h; simp at h ⊢; omega)
        (by intro a b c h1 h2; simp at h1 h2 ⊢; omega)
        x acc (hacc.imp (by intro a b h; simp; omega))
      exact this.imp (by intro a b h; simp at h; omega)
    rw [List.foldl_cons, ih _ hins, jsInsert_filter_key key s x acc hacc]
    by_cases hxs : key x == s <;> simp [List.filter_cons, hxs]

theorem selPass_length_le (maxFiles : Nat) (cond : List α → α → Bool) :
    ∀ (l sel : List α), sel.length ≤ maxFiles →
      (selPass maxFiles cond l sel).length ≤ maxFiles := by
  intro l
  induction l with
  | nil => intro sel h; simpa [selPass] using h
  | cons f rest ih =>
    intro sel h
    by_cases hge : sel.length ≥ maxFiles
    · simpa [selPass, hge] using h
    · by_cases hc : cond sel f
      · simp only [selPass, hge, ite_false, hc, ite_true]
        exact ih _ (by simp; omega)
      · simp only [selPass, hge, ite_false, hc, Bool.false_eq_true, not_false_iff]
        exact ih _ h

theorem selPass_sel_subset (maxFiles : Nat) (cond : List α → α → Bool) :
    ∀ (l sel : List α) (x : α), x ∈ sel → x ∈ selPass maxFiles cond l sel := by
  intro l
  induction l with
  | nil => intro sel x hx; simpa [selPass] using hx
  | cons f rest ih =>
    intro sel x hx
    by_cases hge : sel.length ≥ maxFiles
    · simpa [selPass, hge] using hx
    · by_cases hc : cond sel f
      · simp only [selPass, hge, ite_false, hc, ite_true]
        exact ih _ x (by simp [hx])
      · simp only [selPass, hge, ite_false, hc, Bool.false_eq_true, not_false_iff]
        exact ih _ x hx

/-- Every element of the iterated list is either in the output of a pass
whose condition accepts anything not already selected (the second,
fill-remaining pass), or the pass stopped because the cap was reached. -/
theorem selPass_mem_or_full [BEq α] [LawfulBEq α] (maxFiles : Nat) :
    ∀ (l sel : List α) (x : α), x ∈ l →
      x ∈ selPass maxFiles (fun sel f => !sel.contains f) l sel ∨
        (selPass maxFiles (fun sel f => !sel.contains f) l sel).length ≥ maxFiles := by
  intro l
  induction l with
  | nil => intro sel x hx; exact absurd hx (List.not_mem_nil x)
  | cons f rest ih =>
    intro sel x hx
    by_cases hge : sel.length ≥ maxFiles
    · right
      have : selPass maxFiles (fun sel f => !sel.contains f) (f :: rest) sel = sel := by
        simp [selPass, hge]
      rw [this]; exact hge
    · rcases List.mem_cons.mp hx with rfl | hx
      · by_cases hc : sel.contains x
        · left
          simp only [selPass, hge, ite_false, hc, Bool.not_true, Bool.false_eq_true, not_false_iff]
          exact selPass_sel_subset _ _ _ _ _ (by simp_all)
        · left
          simp only [selPass, hge, ite_false, hc, Bool.not_false, ite_true]
          exact selPass_sel_subset _ _ _ _ _ (by simp)
      · by_cases hc : sel.contains f
        · simp only [selPass, hge, ite_false, hc, Bool.not_true, Bool.false_eq_true, not_false_iff]
          exact ih sel x hx
        · simp only [selPass, hge, ite_false, hc, Bool.not_false, ite_true]
          exact ih _ x hx

theorem mem_of_mem_map_snd_enum {α : Type _} (l : List α) (x : α) (hx : x ∈ l) :
    ∃ p ∈ l.enum, p.2 = x := by
  have h : l.enum.map Prod.snd = l := List.enum_map_snd l
  rw [← h] at hx
  exact List.mem_map.mp hx

/-- C6: for every input, the Sampler's output length is at most the cap
(`selected.slice(0, maxFiles)` on line 157 of `sampling.ts`). -/
theorem intelligentSampling_length_le_cap (files : List RepoFile)
    (heuristics : List RuleHit) (maxFiles : Nat) :
    (intelligentSampling files heuristics maxFiles).length ≤ maxFiles := by
  simp [intelligentSampling]

/-- C1 counterexample: with cap 1, the file `src/foo.py` is non-binary,
has content, and is referenced by a rule hit, yet it is absent from the
Sampler's output: the quota pass selects the higher-scoring
`src/lib/middleware.ts` (score 12 vs 10) and then stops at the cap, so
the heuristic-hit category's unlimited quota does not save the flagged
file once the cap is reached. -/
theorem intelligentSampling_drops_flagged_at_cap :
    sampleFileB.isBinary = false ∧ sampleFileB.content.isSome = true ∧
    sampleHit.file = sampleFileB.path ∧ sampleFileB ∈ [sampleFileA, sampleFileB] ∧
    sampleFileB.path ∉
      (intelligentSampling [sampleFileA, sampleFileB] [sampleHit] 1).map (·.path) := by
  decide

/-- C1 as amended: every non-binary, content-bearing file referenced by
at least one RuleHit appears in the Sampler's output **unless the output
is already at the cap** (flagged files can only be dropped by cap
exhaustion; with unlimited input they are not otherwise dropped). -/
theorem intelligentSampling_flagged_mem_or_full (files : List RepoFile)
    (heuristics : List RuleHit) (maxFiles : Nat) (f : RepoFile)
    (hf : f ∈ files) (hbin : f.isBinary = false) (hcont : f.content.isSome = true)
    (hflag : f.path ∈ heuristics.map (·.file)) :
    f.path ∈ (intelligentSampling files heuristics maxFiles).map (·.path) ∨
      (intelligentSampling files heuristics maxFiles).length = maxFiles := by
  classical
  rcases Option.isSome_iff_exists.mp hcont with ⟨len, hlen⟩
  have hmem : scoreFile (heuristics.map (·.file)) f len ∈ sampleScored files heuristics := by
    refine List.mem_filterMap.mpr ⟨f, hf, ?_⟩
    simp [hbin, hlen]
  have hmem2 : scoreFile (heuristics.map (·.file)) f len
      ∈ jsSortBy (fun a b => decide (b.priority < a.priority)) (sampleScored files heuristics) :=
    (jsSortBy_perm _ _).mem_iff.mpr hmem
  rcases mem_of_mem_map_snd_enum _ _ hmem2 with ⟨p, hp, hp2⟩
  have hp' : p ∈ sampleSorted files heuristics := hp
  have hlen1 : (samplePass1 files heuristics maxFiles).length ≤ maxFiles :=
    selPass_length_le _ _ _ _ (by simp)
  have hlen2 : (samplePass2 files heuristics maxFiles).length ≤ maxFiles :=
    selPass_length_le _ _ _ _ hlen1
  rcases selPass_mem_or_full maxFiles (sampleSorted files heuristics)
      (samplePass1 files heuristics maxFiles) p hp' with hin | hfull
  · left
    have hin' : p ∈ samplePass2 files heuristics maxFiles := by
      rw [samplePass2]; exact hin
    rw [intelligentSampling, List.take_of_length_le hlen2]
    refine List.mem_map.mpr ⟨p.2, List.mem_map.mpr ⟨p, hin', rfl⟩, ?_⟩
    rw [hp2]
    rfl
  · right
    have hfull' : (samplePass2 files heuristics maxFiles).length ≥ maxFiles := by
      rw [samplePass2]; exact hfull
    rw [intelligentSampling]
    simp only [List.length_map, List.length_take]
    omega

/-- Witness for `intelligentSampling_flagged_mem_or_full`: with a cap of
2 the flagged file is selected. -/
theorem intelligentSampling_flagged_mem_or_full_witness :
    (sampleFileB ∈ [sampleFileA, sampleFileB] ∧ sampleFileB.isBinary = false ∧
      sampleFileB.content.isSome = true ∧
      sampleFileB.path ∈ [sampleHit].map (·.file)) ∧
    (sampleFileB.path ∈ (intelligentSampling [sampleFileA, sampleFileB] [sampleHit] 2).map (·.path) ∨
      (intelligentSampling [sampleFileA, sampleFileB] [sampleHit] 2).length = 2) :=
  ⟨⟨by decide, by decide, by decide, by decide⟩,
    intelligentSampling_flagged_mem_or_full [sampleFileA, sampleFileB] [sampleHit] 2 sampleFileB
      (by decide) (by decide) (by decide) (by decide)⟩

theorem jsTrim_ne_empty_guard (s : String) (h : jsTrim s ≠ "") :
    (s.isEmpty || (jsTrim s).isEmpty) = false := by
  have h1 : (jsTrim s).isEmpty = false := by
    cases he : (jsTrim s).isEmpty
    · rfl
    · exact absurd ((String.isEmpty_iff _).mp he) h
  have h2 : s.isEmpty = false := by
    cases he : s.isEmpty
    · rfl
    · exact absurd (by rw [(String.isEmpty_iff _).mp he]; rfl) h
  rw [h1, h2]
  rfl

/-- C3: the OutputNormalizer's three contract cases.
1. An input that is already an array is returned unchanged with zero
   warnings appended.
2. A text payload whose full trimmed form does not parse, but whose
   first-`[`-to-last-`]` slice parses as a JSON array, yields that array
   plus exactly one recovery warning.
3. A text payload that is unparseable (trimmed form does not parse, and
   the bracket slice, if any, does not parse either) yields the empty
   list plus exactly one failure warning. -/
theorem normalizeAgentOutput_spec :
    (∀ (agent : String) (l : List Json) (w : List String),
        normalizeAgentOutput agent (.arr l) w = (l, w))
    ∧ (∀ (agent s : String) (w : List String) (sl : String) (l : List Json),
        jsTrim s ≠ "" →
        jsonParse (jsTrim s) = none →
        arraySlice (jsTrim s) = some sl →
        jsonParse sl = some (.arr l) →
        normalizeAgentOutput agent (.str s) w
          = (l, w ++ [agent ++ ": parsed after array-slice extraction"]))
    ∧ (∀ (agent s : String) (w : List String),
        jsTrim s ≠ "" →
        jsonParse (jsTrim s) = none →
        (∀ sl, arraySlice (jsTrim s) = some sl → jsonParse sl = none) →
        normalizeAgentOutput agent (.str s) w
          = ([], w ++ [agent ++ ": failed to parse JSON"])) := by
  refine ⟨fun agent l w => rfl, ?_, ?_⟩
  · intro agent s w sl l hne hraw hslice hsl
    by_cases hsleq : sl = jsTrim s
    · rw [hsleq] at hsl
      rw [hraw] at hsl
      exact Option.noConfusion hsl
    · simp only [normalizeAgentOutput, jsTrim_ne_empty_guard s hne, Bool.false_eq_true,
        if_false, hslice, hsleq, ne_eq, not_false_eq_true, ite_true, List.singleton_append,
        List.cons_append, List.nil_append]
      simp [normAttempts, hraw, hsl]
      rw [String.append_assoc, String.append_assoc]
      exact congrArg (fun t => agent ++ t) (by decide)
  · intro agent s w hne hraw hslice
    cases harr : arraySlice (jsTrim s) with
    | none =>
      simp [normalizeAgentOutput, jsTrim_ne_empty_guard s hne, harr, normAttempts, hraw]
    | some sl =>
      have hsl := hslice sl harr
      by_cases hsleq : sl = jsTrim s
      · simp [normalizeAgentOutput, jsTrim_ne_empty_guard s hne, harr, hsleq,
          normAttempts, hraw]
      · simp [normalizeAgentOutput, jsTrim_ne_empty_guard s hne, harr, hsleq,
          normAttempts, hraw, hsl]

/-- Witness for `normalizeAgentOutput_spec` at concrete payloads: a
prose-wrapped array is recovered with one warning, and an unparseable
payload produces one failure warning. -/
theorem normalizeAgentOutput_spec_witness :
    (jsTrim "Sure! [1, 2] done" ≠ "" ∧
      jsonParse (jsTrim "Sure! [1, 2] done") = none ∧
      arraySlice (jsTrim "Sure! [1, 2] done") = some "[1, 2]" ∧
      jsonParse "[1, 2]" = some (.arr [.num "1", .num "2"]) ∧
      normalizeAgentOutput "ux" (.str "Sure! [1, 2] done") []
        = ([.num "1", .num "2"], ["ux: parsed after array-slice extraction"])) ∧
    (jsTrim "oops" ≠ "" ∧ jsonParse (jsTrim "oops") = none ∧
      normalizeAgentOutput "lint" (.str "oops") ["w0"]
        = ([], ["w0", "lint: failed to parse JSON"])) := by
  refine ⟨⟨by decide, rfl, rfl, rfl, ?_⟩, ⟨by decide, rfl, ?_⟩⟩
  · exact normalizeAgentOutput_spec.2.1 "ux" "Sure! [1, 2] done" [] "[1, 2]"
      [.num "1", .num "2"] (by decide) rfl rfl rfl
  · exact normalizeAgentOutput_spec.2.2 "lint" "oops" ["w0"] (by decide) rfl
      (fun sl h => by
        rw [show arraySlice (jsTrim "oops") = none from rfl] at h
        exact Option.noConfusion h)

theorem except_isOk_exists (x : Except AgentError AgentRaw) (h : x.isOk = true) :
    ∃ a, x = .ok a := by
  cases x with
  | ok a => exact ⟨a, rfl⟩
  | error e => simp [Except.isOk, Except.toBool] at h

/-- C2 counterexample: five analyzers return empty findings and one
(the security analyzer) raises an error with no recoverable wrapped
text.  `agentWrapper` rethrows (line 121), so `Promise.all` rejects and
`runFullAudit` propagates the rejection: no report is produced at all —
contrary to the claim, the batch does not return the other five
analyzers' results, records no warning, and reports no `stats.agents`. -/
theorem runFullAudit_aborts_on_unrecoverable_agent_error :
    runFullAuditCore (fun _ => "x") [] (fun _ => .ok (.arr [])) 3 2 1 3 "vercel" "gpt"
      (.ok (.arr [])) (.ok (.arr [])) (.ok (.arr []))
      (.error ⟨none⟩) (.ok (.arr [])) (.ok (.arr []))
      = .error ⟨none⟩ := rfl

/-- C2 as amended: if exactly one of the six analyzers raises an error
carrying no recoverable wrapped text, the whole batch aborts —
`runFullAudit` propagates that analyzer's error and returns no report
(so no per-analyzer isolation, no failure warning, no stats). -/
theorem runFullAudit_error_propagates (randToks : Nat → String)
    (docsSnippets : List (String × String))
    (codemodFn : List Issue → Except AgentError AgentRaw)
    (c1 c2 c3 c4 : Nat) (provider modelId : String)
    (outs : Fin 6 → Except AgentError AgentRaw) (i : Fin 6) (e : AgentError)
    (herr : outs i = .error e) (htext : e.text = none)
    (hok : ∀ j, j ≠ i → (outs j).isOk = true) :
    runFullAuditCore randToks docsSnippets codemodFn c1 c2 c3 c4 provider modelId
      (outs 0) (outs 1) (outs 2) (outs 3) (outs 4) (outs 5) = .error e := by
  have hw : agentWrapper (.error e) = .error e := by
    simp [agentWrapper, htext]
  fin_cases i
  · have herr' : outs 0 = Except.error e := herr
    rw [runFullAuditCore, herr', hw]
    rfl
  · have herr' : outs 1 = Except.error e := herr
    obtain ⟨a0, h0⟩ := except_isOk_exists _ (hok 0 (by decide))
    rw [runFullAuditCore, herr', h0, hw]
    rfl
  · have herr' : outs 2 = Except.error e := herr
    obtain ⟨a0, h0⟩ := except_isOk_exists _ (hok 0 (by decide))
    obtain ⟨a1, h1⟩ := except_isOk_exists _ (hok 1 (by decide))
    rw [runFullAuditCore, herr', h0, h1, hw]
    rfl
  · have herr' : outs 3 = Except.error e := herr
    obtain ⟨a0, h0⟩ := except_isOk_exists _ (hok 0 (by decide))
    obtain ⟨a1, h1⟩ := except_isOk_exists _ (hok 1 (by decide))
    obtain ⟨a2, h2⟩ := except_isOk_exists _ (hok 2 (by decide))
    rw [runFullAuditCore, herr', h0, h1, h2, hw]
    rfl
  · have herr' : outs 4 = Except.error e := herr
    obtain ⟨a0, h0⟩ := except_isOk_exists _ (hok 0 (by decide))
    obtain ⟨a1, h1⟩ := except_isOk_exists _ (hok 1 (by decide))
    obtain ⟨a2, h2⟩ := except_isOk_exists _ (hok 2 (by decide))
    obtain ⟨a3, h3⟩ := except_isOk_exists _ (hok 3 (by decide))
    rw [runFullAuditCore, herr', h0, h1, h2, h3, hw]
    rfl
  · have herr' : outs 5 = Except.error e := herr
    obtain ⟨a0, h0⟩ := except_isOk_exists _ (hok 0 (by decide))
    obtain ⟨a1, h1⟩ := except_isOk_exists _ (hok 1 (by decide))
    obtain ⟨a2, h2⟩ := except_isOk_exists _ (hok 2 (by decide))
    obtain ⟨a3, h3⟩ := except_isOk_exists _ (hok 3 (by decide))
    obtain ⟨a4, h4⟩ := except_isOk_exists _ (hok 4 (by decide))
    rw [runFullAuditCore, herr', h0, h1, h2, h3, h4, hw]
    rfl

theorem runFullAudit_error_propagates_witness :
    runFullAuditCore (fun _ => "x") [] (fun _ => .ok (.arr [])) 3 2 1 3 "vercel" "gpt"
      (oneFailingAgent 0) (oneFailingAgent 1) (oneFailingAgent 2)
      (oneFailingAgent 3) (oneFailingAgent 4) (oneFailingAgent 5) = .error ⟨none⟩ :=
  runFullAudit_error_propagates (fun _ => "x") [] (fun _ => .ok (.arr [])) 3 2 1 3
    "vercel" "gpt" oneFailingAgent 3 ⟨none⟩ rfl rfl
    (by intro j hj; fin_cases j <;> first | rfl | exact absurd rfl hj)

/-- C7: in every run and under every completion order, the codemod
planner is invoked after all six analyzers have completed, and its input
is exactly the merged (normalized, docs-attached) issues list derived
from the six analyzers' outputs. -/
theorem codemod_strictly_after_agents (randToks : Nat → String)
    (docsSnippets : List (String × String)) (order : List (Fin 6))
    (uxR beR dbR secR perfR lintR : Except AgentError AgentRaw)
    (n : Nat) (inp : List Issue)
    (hn : (runFullAuditTrace randToks docsSnippets order uxR beR dbR secR perfR lintR)[n]?
        = some (.codemodInvoked inp)) :
    (∀ m i, (runFullAuditTrace randToks docsSnippets order uxR beR dbR secR perfR lintR)[m]?
        = some (.agentDone i) → m < n) ∧
    ∃ ux be db sec perf lint,
      promiseAll6 (agentWrapper uxR) (agentWrapper beR) (agentWrapper dbR)
          (agentWrapper secR) (agentWrapper perfR) (agentWrapper lintR)
        = .ok (ux, be, db, sec, perf, lint) ∧
      inp = attachDocs docsSnippets
        (mergeAgentIssues randToks ⟨ux, be, db, sec, perf, lint⟩ []).1 := by
  cases hbatch : promiseAll6 (agentWrapper uxR) (agentWrapper beR) (agentWrapper dbR)
      (agentWrapper secR) (agentWrapper perfR) (agentWrapper lintR) with
  | error err =>
    exfalso
    rw [runFullAuditTrace, hbatch] at hn
    simp only [List.append_nil] at hn
    rcases List.getElem?_eq_some_iff.mp hn with ⟨hlt, hget⟩
    simp only [List.getElem_map] at hget
    exact AuditEvent.noConfusion hget
  | ok tup =>
    obtain ⟨ux, be, db, sec, perf, lint⟩ := tup
    have htr : runFullAuditTrace randToks docsSnippets order uxR beR dbR secR perfR lintR
        = (order.map .agentDone) ++ [.codemodInvoked (attachDocs docsSnippets
            (mergeAgentIssues randToks ⟨ux, be, db, sec, perf, lint⟩ []).1)] := by
      rw [runFullAuditTrace, hbatch]
    rw [htr] at hn
    rw [List.getElem?_append] at hn
    have hnlen : n = order.length := by
      by_cases hlt : n < (List.map AuditEvent.agentDone order).length
      · exfalso
        rw [if_pos hlt] at hn
        rcases List.getElem?_eq_some_iff.mp hn with ⟨_, hget⟩
        simp only [List.getElem_map] at hget
        exact AuditEvent.noConfusion hget
      · rw [if_neg hlt] at hn
        push_neg at hlt
        rcases List.getElem?_eq_some_iff.mp hn with ⟨hlen, _⟩
        simp only [List.length_map] at hlt hlen
        simp only [List.length_cons, List.length_nil] at hlen
        omega
    constructor
    · intro m i hm
      rw [htr, List.getElem?_append] at hm
      by_cases hlt : m < (List.map AuditEvent.agentDone order).length
      · simp only [List.length_map] at hlt
        omega
      · exfalso
        rw [if_neg hlt] at hm
        rcases List.getElem?_eq_some_iff.mp hm with ⟨hlen, _⟩
        simp only [List.length_cons, List.length_nil] at hlen
        have hm0 : m - (List.map AuditEvent.agentDone order).length = 0 := by omega
        rw [hm0] at hm
        simp only [List.getElem?_cons_zero, Option.some.injEq] at hm
        exact AuditEvent.noConfusion hm
    · refine ⟨ux, be, db, sec, perf, lint, rfl, ?_⟩
      rw [if_neg (by simp [hnlen])] at hn
      simp only [List.length_map, hnlen, Nat.sub_self] at hn
      simp only [List.getElem?_cons_zero, Option.some.injEq,
        AuditEvent.codemodInvoked.injEq] at hn
      exact hn.symm

/-- Witness for `codemod_strictly_after_agents`: six successful empty
analyzers completing in index order; the codemod invocation is at
position 6 with the empty merged issues list. -/
theorem codemod_strictly_after_agents_witness :
    (∀ m i, (runFullAuditTrace (fun _ => "x") [] [0, 1, 2, 3, 4, 5]
        (.ok (.arr [])) (.ok (.arr [])) (.ok (.arr []))
        (.ok (.arr [])) (.ok (.arr [])) (.ok (.arr [])))[m]?
        = some (.agentDone i) → m < 6) ∧
    ∃ ux be db sec perf lint,
      promiseAll6 (agentWrapper (.ok (.arr []))) (agentWrapper (.ok (.arr [])))
          (agentWrapper (.ok (.arr []))) (agentWrapper (.ok (.arr [])))
          (agentWrapper (.ok (.arr []))) (agentWrapper (.ok (.arr [])))
        = .ok (ux, be, db, sec, perf, lint) ∧
      ([] : List Issue) = attachDocs []
        (mergeAgentIssues (fun _ => "x") ⟨ux, be, db, sec, perf, lint⟩ []).1 :=
  codemod_strictly_after_agents (fun _ => "x") [] [0, 1, 2, 3, 4, 5]
    (.ok (.arr [])) (.ok (.arr [])) (.ok (.arr []))
    (.ok (.arr [])) (.ok (.arr [])) (.ok (.arr [])) 6 [] rfl

/-- C4 (code bug): the emitted progress sequence is NOT monotonically
non-decreasing.  `runFullAudit` runs heuristics before sampling, but the
`stageWeights` table places `heuristics` at 40–45, after `sampling`
(25–30) and `parsing` (30–40): the event after heuristics completes
carries progress 45, and the very next event (sampling start) carries
25. -/
theorem auditProgress_not_monotone :
    auditProgressValues[2]? = some (calculateProgress .heuristics 100) ∧
    auditProgressValues[3]? = some (calculateProgress .sampling 0) ∧
    calculateProgress .heuristics 100 = 45 ∧
    calculateProgress .sampling 0 = 25 ∧
    ¬ List.Chain' (· ≤ ·) auditProgressValues := by
  have h2 : calculateProgress .heuristics 100 = 45 := by
    norm_num [calculateProgress, stageWeights]
  have h3 : calculateProgress .sampling 0 = 25 := by
    norm_num [calculateProgress, stageWeights]
  refine ⟨rfl, rfl, h2, h3, ?_⟩
  intro hchain
  have hlen : 2 < auditProgressValues.length - 1 := by
    simp [auditProgressValues]
  have h := (List.chain'_iff_get.mp hchain) 2 hlen
  have hget2 : auditProgressValues.get ⟨2, by omega⟩ = calculateProgress .heuristics 100 := rfl
  have hget3 : auditProgressValues.get ⟨2 + 1, by omega⟩ = calculateProgress .sampling 0 := rfl
  rw [hget2, hget3, h2, h3] at h
  norm_num at h

theorem groupedGet_insertGrouped (acc : List (IssueType × List Issue)) (i : Issue)
    (t : IssueType) :
    groupedGet (insertGrouped acc i) t
      = groupedGet acc t ++ (if i.type = t then [i] else []) := by
  induction acc with
  | nil =>
    by_cases h : i.type = t
    · have h' : (i.type == t) = true := by simpa using h
      simp [insertGrouped, groupedGet, List.find?, h, h']
    · have h' : (i.type == t) = false := by simpa using h
      simp [insertGrouped, groupedGet, List.find?, h, h']
  | cons p rest ih =>
    obtain ⟨th, b⟩ := p
    by_cases h1 : th = i.type
    · by_cases h2 : th = t
      · have hit : i.type = t := h1 ▸ h2
        have hb : (th == t) = true := by simpa using h2
        simp [insertGrouped, groupedGet, List.find?, h1, hb, hit]
      · have hnit : i.type ≠ t := fun hc => h2 (h1.trans hc)
        have hb : (th == t) = false := by simpa using h2
        have hb2 : (i.type == t) = false := by simpa using hnit
        simp [insertGrouped, groupedGet, List.find?, h1, hb, hb2, hnit]
    · by_cases h2 : th = t
      · have hnit : i.type ≠ t := fun hc => h1 (h2.trans hc.symm)
        have hb : (th == t) = true := by simpa using h2
        simp [insertGrouped, groupedGet, List.find?, h1, hb, hnit]
      · have hb : (th == t) = false := by simpa using h2
        simp only [insertGrouped, if_neg h1]
        simp only [groupedGet, List.find?, hb]
        simpa [groupedGet] using ih

theorem groupedGet_foldl (l : List Issue) :
    ∀ (acc : List (IssueType × List Issue)) (t : IssueType),
      groupedGet (l.foldl insertGrouped acc) t
        = groupedGet acc t ++ l.filter (fun i => i.type == t) := by
  induction l with
  | nil => intro acc t; simp
  | cons i l ih =>
    intro acc t
    rw [List.foldl_cons, ih (insertGrouped acc i) t, groupedGet_insertGrouped]
    by_cases h : i.type = t
    · simp [List.filter_cons, h]
    · have h' : (i.type == t) = false := by simpa using h
      simp [List.filter_cons, h, h']

/-- The grouping `Map` reads back exactly the filter of the input by
type, in input order. -/
theorem groupedGet_groupPairs (issues : List Issue) (t : IssueType) :
    groupedGet (groupPairs issues) t = issues.filter (fun i => i.type == t) := by
  have h := groupedGet_foldl issues [] t
  simpa [groupPairs, groupedGet] using h

theorem groupedGet_of_not_mem_keys (g : List (IssueType × List Issue)) (t : IssueType)
    (h : t ∉ g.map Prod.fst) : groupedGet g t = [] := by
  induction g with
  | nil => rfl
  | cons p rest ih =>
    simp only [List.map_cons, List.mem_cons, not_or] at h
    have hne : (p.1 == t) = false := by
      simpa using fun he => h.1 (by simp [he])
    simp only [groupedGet, List.find?, hne]
    exact ih h.2

theorem keys_insertGrouped (acc : List (IssueType × List Issue)) (i : Issue) :
    (insertGrouped acc i).map Prod.fst
      = if i.type ∈ acc.map Prod.fst then acc.map Prod.fst
        else acc.map Prod.fst ++ [i.type] := by
  induction acc with
  | nil => simp [insertGrouped]
  | cons p rest ih =>
    obtain ⟨t', b⟩ := p
    by_cases h1 : t' = i.type
    · subst h1
      simp [insertGrouped]
    · have h1' : ¬ i.type = t' := fun h => h1 h.symm
      by_cases h2 : i.type ∈ rest.map Prod.fst <;>
        simp [insertGrouped, h1, h1', h2, ih]

theorem keys_nodup_foldl (l : List Issue) :
    ∀ (acc : List (IssueType × List Issue)), (acc.map Prod.fst).Nodup →
      ((l.foldl insertGrouped acc).map Prod.fst).Nodup := by
  induction l with
  | nil => intro acc h; simpa using h
  | cons i l ih =>
    intro acc h
    rw [List.foldl_cons]
    refine ih (insertGrouped acc i) ?_
    rw [keys_insertGrouped]
    by_cases hm : i.type ∈ acc.map Prod.fst
    · simpa [hm] using h
    · simp only [hm, ite_false]
      exact List.Nodup.append h (by simp) (by simpa using hm)

theorem keys_groupPairs_nodup (issues : List Issue) :
    ((groupPairs issues).map Prod.fst).Nodup :=
  keys_nodup_foldl issues [] (by simp)

theorem keys_mem_filter_ne (issues : List Issue) (t : IssueType)
    (h : t ∉ (groupPairs issues).map Prod.fst) :
    issues.filter (fun i => i.type == t) = [] := by
  rw [← groupedGet_groupPairs]
  exact groupedGet_of_not_mem_keys _ t h

/-- A stable ascending sort by injective index of a duplicate-free key
list equals the fixed order filtered to the present keys. -/
theorem jsSortBy_keys_eq_filter (keys : List IssueType) (hnd : keys.Nodup) :
    jsSortBy (fun a b => decide (typeIdx a < typeIdx b)) keys
      = typeOrder.filter (fun t => decide (t ∈ keys)) := by
  have hinj : ∀ a b : IssueType, typeIdx a = typeIdx b → a = b := by decide
  have hperm1 : List.Perm (jsSortBy (fun a b => decide (typeIdx a < typeIdx b)) keys) keys :=
    jsSortBy_perm _ _
  have hmemTO : ∀ t : IssueType, t ∈ typeOrder := by decide
  have hndTO : typeOrder.Nodup := by decide
  have hperm2 : List.Perm (typeOrder.filter (fun t => decide (t ∈ keys))) keys := by
    apply List.perm_of_nodup_nodup_toFinset_eq (hndTO.filter _) hnd
    ext a
    simp [List.mem_filter, hmemTO a]
  have hsorted1 : (jsSortBy (fun a b => decide (typeIdx a < typeIdx b)) keys).Pairwise
      (fun a b => typeIdx a ≤ typeIdx b) := by
    have := jsSortBy_pairwise (fun a b => decide (typeIdx a < typeIdx b))
      (by intro a b h; simp at h ⊢; omega)
      (by intro a b c h1 h2; simp at h1 h2 ⊢; omega) keys
    exact this.imp (by intro a b h; simp at h; omega)
  have hsortedTO : typeOrder.Pairwise (fun a b => typeIdx a < typeIdx b) := by decide
  have hsorted2 : (typeOrder.filter (fun t => decide (t ∈ keys))).Pairwise
      (fun a b => typeIdx a ≤ typeIdx b) :=
    ((hsortedTO.sublist (List.filter_sublist _)).imp (fun h => Nat.le_of_lt h))
  haveI : IsAntisymm IssueType (fun a b => typeIdx a ≤ typeIdx b) :=
    ⟨fun a b h1 h2 => hinj a b (Nat.le_antisymm h1 h2)⟩
  exact List.eq_of_perm_of_sorted (hperm1.trans hperm2.symm) hsorted1 hsorted2

theorem bind_filter_of_nil {α β : Type _} (l : List α) (p : α → Bool) (f : α → List β)
    (h : ∀ a ∈ l, p a = false → f a = []) :
    (l.filter p).bind f = l.bind f := by
  induction l with
  | nil => rfl
  | cons a l ih =>
    have ih' := ih (fun a ha => h a (List.mem_cons_of_mem _ ha))
    cases hp : p a with
    | true => simp [List.filter_cons, hp, List.cons_bind, ih']
    | false =>
      simp [List.filter_cons, hp, List.cons_bind, ih', h a (List.mem_cons_self a l) hp]

/-- C5: the rendered report's issue order.
1. For every issue list, the rendering order is: the fixed type priority
   order `security, performance, backend, ux, db, lint, general`, and
   within each type the issues of that type sorted by descending
   severity with the stable JS sort.
2. Within each group severities are non-increasing.
3. The sort is stable: restricted to one severity, the group keeps the
   input order.
4. The example: security findings with severities `[low, critical,
   medium]` render as `critical, medium, low`. -/
theorem buildMarkdownReport_groups_and_sorts :
    (∀ issues : List Issue,
      buildMarkdownReportOrder issues
        = typeOrder.bind (fun t => jsSortBy sevLt (issues.filter (fun i => i.type == t))))
    ∧ (∀ (issues : List Issue) (t : IssueType),
      (jsSortBy sevLt (issues.filter (fun i => i.type == t))).Pairwise
        (fun a b => severityRank b.severity ≤ severityRank a.severity))
    ∧ (∀ (issues : List Issue) (t : IssueType) (s : Severity),
      (jsSortBy sevLt (issues.filter (fun i => i.type == t))).filter
          (fun i => i.severity == s)
        = (issues.filter (fun i => i.type == t)).filter (fun i => i.severity == s))
    ∧ buildMarkdownReportOrder [exIssue .low "a", exIssue .critical "b", exIssue .medium "c"]
        = [exIssue .critical "b", exIssue .medium "c", exIssue .low "a"] := by
  refine ⟨?_, ?_, ?_, ?_⟩
  · intro issues
    simp only [buildMarkdownReportOrder]
    rw [jsSortBy_keys_eq_filter _ (keys_groupPairs_nodup issues)]
    have hfg : (fun t => jsSortBy sevLt (groupedGet (groupPairs issues) t))
        = (fun t => jsSortBy sevLt (issues.filter (fun i => i.type == t))) :=
      funext (fun t => by rw [groupedGet_groupPairs])
    rw [hfg]
    refine bind_filter_of_nil typeOrder _ _ (fun t _ hp => ?_)
    have hnm : t ∉ (groupPairs issues).map Prod.fst := by simpa using hp
    rw [keys_mem_filter_ne issues t hnm]
    rfl
  · intro issues t
    have h := jsSortBy_pairwise sevLt
      (by intro a b h; simp [sevLt] at h ⊢; omega)
      (by intro a b c h1 h2; simp [sevLt] at h1 h2 ⊢; omega)
      (issues.filter (fun i => i.type == t))
    exact h.imp (by intro a b hb; simp [sevLt] at hb; omega)
  · intro issues t s
    have hpt : ∀ i : Issue, (i.severity == s)
        = (severityRank i.severity == severityRank s) := by
      intro i
      have : ∀ a b : Severity, (a == b) = (severityRank a == severityRank b) := by decide
      exact this i.severity s
    have hsev : sevLt = (fun a b : Issue =>
        decide (severityRank b.severity < severityRank a.severity)) := rfl
    rw [List.filter_congr (fun a _ => hpt a), hsev,
      jsSortBy_filter_key (fun i : Issue => severityRank i.severity) (severityRank s),
      List.filter_congr (fun a _ => (hpt a).symm)]
  · rfl

/-- C8: with a `null`/`undefined` revision, `getCachedScan` returns
absent without performing any store access, and `cacheScanResult` writes
nothing and performs no store access — caching is skipped entirely. -/
theorem scanCache_skips_on_missing_revision :
    (∀ (store : CacheStore) (now : Int) (owner repo provider model : String)
        (options : CacheOptions),
      getCachedScan store now owner repo none provider model options = (none, []))
    ∧ (∀ (store : CacheStore) (now : Int) (result : CacheInput),
      cacheScanResult store now result none = (store, [])) :=
  ⟨fun _ _ _ _ _ _ _ => rfl, fun _ _ _ => rfl⟩

theorem foldl_append_eq_bind {α β : Type _} (f : α → List β) (l : List α) :
    ∀ acc : List β, l.foldl (fun cs n => cs ++ f n) acc = acc ++ l.bind f := by
  induction l with
  | nil => intro acc; simp
  | cons n l ih => intro acc; simp [ih (acc ++ f n)]

theorem chunksOfNode_file (p c : String) (n : AstNode) :
    ∀ ch ∈ chunksOfNode p c n, ch.file = p := by
  intro ch hch
  cases hk : n.kind <;> simp [chunksOfNode, hk] at hch
  · rw [hch]; rfl
  · rw [hch]; rfl
  · rcases hch with ⟨_, hch⟩
    rw [hch]; rfl

theorem chunksOfNode_id (p q c : String) (hbase : baseName p = baseName q) (n : AstNode) :
    (chunksOfNode p c n).map (·.id) = (chunksOfNode q c n).map (·.id) := by
  cases hk : n.kind with
  | functionDecl => simp [chunksOfNode, hk, mkChunk, hbase]
  | classDecl => simp [chunksOfNode, hk, mkChunk, hbase]
  | variableStmt =>
    simp only [chunksOfNode, hk]
    split <;> simp [mkChunk, hbase]

theorem nodeChunks_id (N : List AstNode) (p q c : String)
    (hbase : baseName p = baseName q) :
    (N.bind (chunksOfNode p c)).map (·.id) = (N.bind (chunksOfNode q c)).map (·.id) := by
  induction N with
  | nil => rfl
  | cons n N ih =>
    simp only [List.cons_bind, List.map_append, ih, chunksOfNode_id p q c hbase n]

/-- C9: chunk ids are not unique across files.  For any parse function,
two files at different directory paths with the same base filename and
identical content produce chunks with identical ids (the id is built
from `getBaseName()` and the line span only, while `file` keeps the full
path). -/
theorem buildCodeGraph_id_collision (ast : String → List AstNode) :
    ∃ c1 ∈ buildCodeGraph ast
        [⟨"a/x.ts", some "export const x = 1;\n", false⟩,
         ⟨"b/x.ts", some "export const x = 1;\n", false⟩],
      ∃ c2 ∈ buildCodeGraph ast
        [⟨"a/x.ts", some "export const x = 1;\n", false⟩,
         ⟨"b/x.ts", some "export const x = 1;\n", false⟩],
        c1.file ≠ c2.file ∧ c1.id = c2.id := by
  set content := "export const x = 1;\n" with hcontent
  have hel : eligibleFiles
      [⟨"a/x.ts", some content, false⟩, ⟨"b/x.ts", some content, false⟩]
      = [("/a/x.ts", content), ("/b/x.ts", content)] := rfl
  have hbase : baseName "/a/x.ts" = baseName "/b/x.ts" := rfl
  set na := (ast content).bind (chunksOfNode "/a/x.ts" content) with hna
  set nb := (ast content).bind (chunksOfNode "/b/x.ts" content) with hnb
  have hfa : ∀ ch ∈ na, ch.file = "/a/x.ts" := by
    intro ch hch
    rcases List.mem_bind.mp hch with ⟨n, _, hchn⟩
    exact chunksOfNode_file _ _ n ch hchn
  have hfb : ∀ ch ∈ nb, ch.file = "/b/x.ts" := by
    intro ch hch
    rcases List.mem_bind.mp hch with ⟨n, _, hchn⟩
    exact chunksOfNode_file _ _ n ch hchn
  have hid : na.map (·.id) = nb.map (·.id) := nodeChunks_id (ast content) _ _ content hbase
  have hfilterA : na.filter (fun c => c.file == "/a/x.ts") = na :=
    List.filter_eq_self.mpr (fun c hc => by simp [hfa c hc])
  have hfilterB : ∀ blockA : List CodeChunk, (∀ ch ∈ blockA, ch.file = "/a/x.ts") →
      ((blockA ++ nb).filter (fun c => c.file == "/b/x.ts")) = nb := by
    intro blockA hblk
    rw [List.filter_append]
    have h1 : blockA.filter (fun c => c.file == "/b/x.ts") = [] :=
      List.filter_eq_nil_iff.mpr (fun c hc => by simp [hblk c hc])
    have h2 : nb.filter (fun c => c.file == "/b/x.ts") = nb :=
      List.filter_eq_self.mpr (fun c hc => by simp [hfb c hc])
    rw [h1, h2, List.nil_append]
  have hbuild : buildCodeGraph ast
      [⟨"a/x.ts", some content, false⟩, ⟨"b/x.ts", some content, false⟩]
      = chunkStep ast (chunkStep ast [] ("/a/x.ts", content)) ("/b/x.ts", content) := by
    rw [buildCodeGraph, hel]
    rfl
  cases hcase : na with
  | nil =>
    have hnbnil : nb = [] := by
      have := hid
      rw [hcase] at this
      exact List.map_eq_nil_iff.mp this.symm
    have hA : chunkStep ast [] ("/a/x.ts", content) = [fallbackChunk "/a/x.ts" content] := by
      simp only [chunkStep, foldl_append_eq_bind, List.nil_append, ← hna, hcase]
      simp
    have hB : chunkStep ast [fallbackChunk "/a/x.ts" content] ("/b/x.ts", content)
        = [fallbackChunk "/a/x.ts" content, fallbackChunk "/b/x.ts" content] := by
      simp only [chunkStep, foldl_append_eq_bind, List.nil_append, ← hnb, hnbnil,
        List.append_nil]
      rw [show ([fallbackChunk "/a/x.ts" content].filter
          (fun c => c.file == "/b/x.ts")) = [] from rfl]
      simp
    refine ⟨fallbackChunk "/a/x.ts" content, ?_, fallbackChunk "/b/x.ts" content, ?_, ?_, ?_⟩
    · rw [hbuild, hA, hB]; exact List.mem_cons_self _ _
    · rw [hbuild, hA, hB]; exact List.mem_cons_of_mem _ (List.mem_cons_self _ _)
    · decide
    · rfl
  | cons ca ta =>
    have hnbne : nb ≠ [] := by
      intro hnil
      rw [hcase, hnil] at hid
      simp at hid
    obtain ⟨cb, tb, hcb⟩ := List.exists_cons_of_ne_nil hnbne
    have hA : chunkStep ast [] ("/a/x.ts", content) = na := by
      simp only [chunkStep, foldl_append_eq_bind, List.nil_append, ← hna]
      rw [hfilterA, hcase]
      simp
    have hB : chunkStep ast na ("/b/x.ts", content) = na ++ nb := by
      simp only [chunkStep, foldl_append_eq_bind, List.nil_append, ← hnb]
      rw [hfilterB na hfa]
      rw [hcb]
      simp
    have hidhead : ca.id = cb.id := by
      rw [hcase, hcb] at hid
      simp only [List.map_cons, List.cons.injEq] at hid
      exact hid.1
    refine ⟨ca, ?_, cb, ?_, ?_, hidhead⟩
    · rw [hbuild, hA, hB]
      exact List.mem_append_left _ (by rw [hcase]; exact List.mem_cons_self _ _)
    · rw [hbuild, hA, hB]
      exact List.mem_append_right _ (by rw [hcb]; exact List.mem_cons_self _ _)
    · have h1 : ca.file = "/a/x.ts" := hfa ca (by rw [hcase]; exact List.mem_cons_self _ _)
      have h2 : cb.file = "/b/x.ts" := hfb cb (by rw [hcb]; exact List.mem_cons_self _ _)
      rw [h1, h2]
      decide

/-- C10 counterexample: a `runFullAudit` call with
`provider = openrouter` on a module state whose OpenRouter client is
not yet memoized.  The single agent call runs `resolveModel` →
`ensureOpenRouter`, which writes `cachedOpenRouter`; the run then
propagates an agent error, and the `finally` block restores only
`activeProvider`.  The module state observable after the call differs
from its value before the call: `cachedOpenRouter` is left changed, so
the claim's "no other field of that shared selection is left changed"
is false on the code. -/
theorem runFullAudit_changes_openrouter_cache :
    exProviderState.cachedOpenRouter = none ∧
    (runFullAuditProviderFrame exProviderState (some .openrouter)
        exOpenRouterBody).2.activeProvider = exProviderState.activeProvider ∧
    (runFullAuditProviderFrame exProviderState (some .openrouter)
        exOpenRouterBody).2.cachedOpenRouter ≠ none ∧
    (runFullAuditProviderFrame exProviderState (some .openrouter)
        exOpenRouterBody).2 ≠ exProviderState := by
  decide

/-- C10 as amended: whatever the body does — return a report or
propagate an error, and whatever it leaves the module state set to —
the `activeProvider` field observable after `runFullAudit` equals its
value before the call (read into `prevProvider` before the switch,
written back by the `finally` block), and the body's outcome passes
through unchanged; the module's other mutable field,
`cachedOpenRouter`, is outside this guarantee. -/
theorem runFullAudit_restores_active_provider :
    ∀ (s0 : ProviderState) (inp : Option AIProviderName)
      (body : ProviderState → Except AgentError ScanResultM × ProviderState),
      getAIProvider (runFullAuditProviderFrame s0 inp body).2 = getAIProvider s0 ∧
      (runFullAuditProviderFrame s0 inp body).1
        = (body (setAIProvider (inp.getD .vercel) s0)).1 :=
  fun _ _ _ => ⟨rfl, rfl⟩

end NextAudit
